import Mathlib

/-!
# jobseekernz: message decoding and structured extraction

A shallow embedding of the two Go sources (`quickstart.go`, `GoogleClient.go`):
the MIME part tree and the body resolver `getMessageBody`, the header lookup,
the `GmailClient.Email` summary, and the decode / extract / accumulate loop of
`main`.  Go `string` values are Lean `String`s; slices are `List`s.  Pointers
delivered by the mail service (`*gmail.MessagePart`, `*gmail.MessagePartBody`,
`*gmail.MessagePartHeader`) are taken to be non-nil.
-/

namespace Jobseeker

/-! ## Data model (the parts of `gmail/v1` the program reads) -/

/-- The Go type `gmail.MessagePartHeader`: one `(Name, Value)` header. -/
structure MessagePartHeader where
  Name : String
  Value : String
deriving Repr, DecidableEq

/-- The Go type `gmail.MessagePartBody`; only `Data` is read by the program. -/
structure MessagePartBody where
  Data : String
deriving Repr, DecidableEq

/-- The Go type `gmail.MessagePart`: a node of the MIME tree. -/
inductive MessagePart where
  | mk (MimeType : String) (Headers : List MessagePartHeader)
       (Body : MessagePartBody) (Parts : List MessagePart)

namespace MessagePart

/-- Field `MimeType`. -/
def MimeType : MessagePart → String
  | mk m _ _ _ => m

/-- Field `Headers`. -/
def Headers : MessagePart → List MessagePartHeader
  | mk _ h _ _ => h

/-- Field `Body`. -/
def Body : MessagePart → MessagePartBody
  | mk _ _ b _ => b

/-- Field `Parts`. -/
def Parts : MessagePart → List MessagePart
  | mk _ _ _ p => p

end MessagePart

/-- The Go type `gmail.Message`, as far as the program reads it. -/
structure Message where
  Id : String
  Payload : MessagePart

/-! ## `getMessageBody` (quickstart.go 87-100, GoogleClient.go 58-71) -/

/-- The body resolver.  The Go loop visits `parts` in order; a part with
children makes the function return the result of the recursive call at once,
a childless `text/html` part makes it return that part's body data, any other
childless part lets the loop go on. -/
def getMessageBody : List MessagePart → String
  | [] => ""
  | .mk mimeType _ body parts :: rest =>
    if parts.length > 0 then
      getMessageBody parts
    else if mimeType = "text/html" then
      body.Data
    else
      getMessageBody rest

/-- Specification side: the body data of every childless `text/html` part, in
pre-order (depth first, children in the given order). -/
def htmlLeaves : List MessagePart → List String
  | [] => []
  | .mk mimeType _ body parts :: rest =>
    (if parts.length > 0 then htmlLeaves parts
     else if mimeType = "text/html" then [body.Data]
     else []) ++ htmlLeaves rest

/-! ## Header lookup (GoogleClient.go 73-94) -/

/-- The value of the header named `wanted`, by a linear scan. -/
def getMessageHeader : List MessagePartHeader → String → String
  | [], _ => ""
  | header :: rest, wanted =>
    if header.Name = wanted then header.Value else getMessageHeader rest wanted

/-- The `From` header. -/
def getMessageSender (headers : List MessagePartHeader) : String :=
  getMessageHeader headers "From"

/-- The `Subject` header. -/
def getMessageSubject (headers : List MessagePartHeader) : String :=
  getMessageHeader headers "Subject"

/-! ## `GmailClient.Email` (GoogleClient.go 14-38) -/

/-- The Go type `Email`. -/
structure Email where
  Subject : String
  Body : String
  Id : String
  Sender : String
deriving Repr, DecidableEq

/-- The client: `get id` stands for `c.srv.Users.Messages.Get(c.email, id)
.Format("full").Do()`, the call to the mail service. -/
structure GmailClient (ε : Type) where
  get : String → Except ε Message

/-- The method `Email`: fetch the message, then fill in the four fields. -/
def GmailClient.Email {ε : Type} (c : GmailClient ε) (id : String) : Except ε Email :=
  match c.get id with
  | .error err => .error err
  | .ok res =>
    .ok { Id := id
          Body := getMessageBody res.Payload.Parts
          Sender := getMessageSender res.Payload.Headers
          Subject := getMessageSubject res.Payload.Headers }

/-! ## The rule types (quickstart.go 102-123) -/

/-- The Go type `Lookup`: one rule, a pair of regular expressions. -/
structure Lookup where
  DataRegex : String
  LabelRegex : String
deriving Repr, DecidableEq

/-- The Go type `LookupResult`.  `LookupUsed` is a `*Lookup`; `none` is the
nil pointer. -/
structure LookupResult where
  Data : String
  Label : String
  LookupUsed : Option Lookup
deriving Repr, DecidableEq

/-- The Go type `LookupSet`. -/
structure LookupSet where
  Lookups : List Lookup
  LookupResults : List LookupResult
  GmailLabel : String
deriving Repr, DecidableEq

/-- The method `add`: append one rule. -/
def LookupSet.add (box : LookupSet) (item : Lookup) : LookupSet :=
  { box with Lookups := box.Lookups ++ [item] }

/-! ## The standard library, as far as `main` calls it

`regexp` and `encoding/base64` are not part of the repository.  The loop of
`main` is embedded over an arbitrary implementation of the calls it makes; a
concrete model of both follows further down (`goLib`). -/

/-- A compiled regular expression (`*regexp.Regexp`): `FindStringSubmatch s`
is `none` for the nil slice (no match), otherwise the text of the leftmost
match followed by the text of each capture group. -/
structure Regexp where
  FindStringSubmatch : String → Option (List String)

/-- The library calls of the loop.  `DecodeString s` is
`base64.StdEncoding.DecodeString(s)` followed by the conversion
`string(decoded)`, with the error of type `ε`; `MustCompile p` is `none` when
`regexp.MustCompile(p)` panics. -/
structure Lib (ε : Type) where
  DecodeString : String → Except ε String
  MustCompile : String → Option Regexp

/-- The function `strings.ReplaceAll` on a list of characters, `fuel` bounding the number
of steps: non-overlapping occurrences of a non-empty `old`, left to right. -/
def replaceAllAux (old new : List Char) : Nat → List Char → List Char
  | 0, s => s
  | _ + 1, [] => []
  | fuel + 1, c :: cs =>
    if old.isPrefixOf (c :: cs) then
      new ++ replaceAllAux old new fuel ((c :: cs).drop old.length)
    else
      c :: replaceAllAux old new fuel cs

/-- Modelled from the spec: the "character substitution" step, Go's
`strings.ReplaceAll(s, old, new)`, which is not under `src/`.  An empty `old`
matches before every character and at the end. -/
def ReplaceAll (s old new : String) : String :=
  if old.data = [] then
    String.mk (new.data ++ s.data.flatMap (fun c => c :: new.data))
  else
    String.mk (replaceAllAux old.data new.data (s.data.length + 1) s.data)

/-! ## The loop of `main` (quickstart.go 187-240) -/

/-- One line written to standard output. -/
inductive Output (ε : Type) where
  /-- The line of `fmt.Println("Emails content:")`. -/
  | emailsContent
  /-- The line of `fmt.Println("decode error:", err)`. -/
  | decodeError (err : ε)
  /-- The line of `fmt.Printf("No Data (%+v) or Label (%+v)\n", dataMatch, labelMatch)`. -/
  | noDataOrLabel (dataMatch labelMatch : Option (List String))
  /-- The line of `fmt.Printf("%s: %s\n", l.Label, l.Data)`. -/
  | result (Label Data : String)

/-- The variables the loop updates: the slice `lookupResults` and what has
been written to standard output so far. -/
structure State (ε : Type) where
  lookupResults : List LookupResult
  stdout : List (Output ε)

/-- How a stretch of `main` ends: control goes on to the next statement, or
`main` executes `return`, or a run-time panic unwinds it. -/
inductive Flow (σ : Type) where
  | next (st : σ)
  | ret (st : σ)
  | panic (st : σ)

/-- The body of `for _, lookup := range allLookups.Lookups` (lines 213-234).
`MustCompile` panics on a pattern that does not compile, and the index
expressions `dataMatch[1]`, `labelMatch[1]` panic on a slice shorter than 2;
they are evaluated in the order of the composite literal. -/
def lookupStep {ε : Type} (lib : Lib ε) (decoded : String) (st : State ε)
    (lookup : Lookup) : Flow (State ε) :=
  match lib.MustCompile lookup.DataRegex with
  | none => .panic st
  | some dataRegex =>
    let dataMatch := dataRegex.FindStringSubmatch decoded
    match lib.MustCompile lookup.LabelRegex with
    | none => .panic st
    | some labelRegex =>
      let labelMatch := labelRegex.FindStringSubmatch decoded
      match dataMatch, labelMatch with
      | some dm, some lm =>
        match dm[1]? with
        | none => .panic st
        | some data =>
          match lm[1]? with
          | none => .panic st
          | some label =>
            let res : LookupResult := { Data := data, Label := label, LookupUsed := none }
            .next { st with lookupResults := st.lookupResults ++ [res] }
      | _, _ =>
        .next { st with stdout := st.stdout ++ [.noDataOrLabel dataMatch labelMatch] }

/-- The loop over the rules, in order. -/
def forLookups {ε : Type} (lib : Lib ε) (decoded : String) :
    List Lookup → State ε → Flow (State ε)
  | [], st => .next st
  | lookup :: rest, st =>
    match lookupStep lib decoded st lookup with
    | .next st' => forLookups lib decoded rest st'
    | stop => stop

/-- The body of `for _, content := range allContent` (lines 190-236), for the
rule set `allLookups`. -/
def contentStep {ε : Type} (lib : Lib ε) (allLookups : LookupSet) (st : State ε)
    (content : Message) : Flow (State ε) :=
  let body := getMessageBody content.Payload.Parts
  match lib.DecodeString (ReplaceAll (ReplaceAll body "-" "+") "_" "/") with
  | .error err => .ret { st with stdout := st.stdout ++ [.decodeError err] }
  | .ok decoded => forLookups lib decoded allLookups.Lookups st

/-- The loop over the messages, in order. -/
def forContents {ε : Type} (lib : Lib ε) (allLookups : LookupSet) :
    List Message → State ε → Flow (State ε)
  | [], st => .next st
  | content :: rest, st =>
    match contentStep lib allLookups st content with
    | .next st' => forContents lib allLookups rest st'
    | stop => stop

/-- The final loop (lines 237-239): one line per accumulated result. -/
def printResults {ε : Type} (st : State ε) : State ε :=
  { st with stdout := st.stdout ++ st.lookupResults.map (fun l => .result l.Label l.Data) }

/-- Lines 187-240 of `main`, from the fetched messages `allContent` on, with
the rule set as a parameter. -/
def mainFrom {ε : Type} (lib : Lib ε) (allLookups : LookupSet)
    (allContent : List Message) : Flow (State ε) :=
  match forContents lib allLookups allContent
      { lookupResults := [], stdout := [.emailsContent] } with
  | .next st => .next (printResults st)
  | stop => stop

/-- The rule set that `main` builds for every message (lines 201-209). -/
def allLookups : LookupSet :=
  { GmailLabel := "Seek"
    Lookups := [
      { DataRegex := "ve found <b>\\s*(\\d+)\\s*</b>"
        LabelRegex := "<b>software in (.+)</b> posted a short while" } ]
    LookupResults := [] }

/-- Lines 187-240 of `main` as written, with its own rule set. -/
def main {ε : Type} (lib : Lib ε) (allContent : List Message) : Flow (State ε) :=
  mainFrom lib allLookups allContent

/-! ## Specification-side notions used to state the properties -/

/-- A rule is well formed for the library: both patterns compile, and every
match of either carries a capture group 1 (the data model's "regular
expression with exactly one capture group"). -/
def RuleOK {ε : Type} (lib : Lib ε) (lookup : Lookup) : Prop :=
  ∃ d l, lib.MustCompile lookup.DataRegex = some d ∧
    lib.MustCompile lookup.LabelRegex = some l ∧
    (∀ t m, d.FindStringSubmatch t = some m → 1 < m.length) ∧
    (∀ t m, l.FindStringSubmatch t = some m → 1 < m.length)

/-- Capture group 1 of the first match of `pattern` in `text`, if there is a
match. -/
def firstCapture {ε : Type} (lib : Lib ε) (pattern text : String) : Option String :=
  match lib.MustCompile pattern with
  | none => none
  | some re =>
    match re.FindStringSubmatch text with
    | none => none
    | some m => m[1]?

/-- What one rule contributes for one text, as `(Label, Data)`: one pair when
both patterns match, nothing otherwise. -/
def ruleOutput {ε : Type} (lib : Lib ε) (text : String) (lookup : Lookup) :
    List (String × String) :=
  match firstCapture lib lookup.DataRegex text, firstCapture lib lookup.LabelRegex text with
  | some data, some label => [(label, data)]
  | _, _ => []

/-- The `(Label, Data)` pair of a result line of the output, if it is one. -/
def Output.resultPair {ε : Type} : Output ε → Option (String × String)
  | .result label data => some (label, data)
  | _ => none

/-- The string handed to the decoder for one message (line 195). -/
def encodedBody (content : Message) : String :=
  ReplaceAll (ReplaceAll (getMessageBody content.Payload.Parts) "-" "+") "_" "/"

/-- The state in which a stretch of `main` ends. -/
def Flow.state {σ : Type} : Flow σ → σ
  | .next st => st
  | .ret st => st
  | .panic st => st

/-- The `(Label, Data)` pair of an accumulated result. -/
def LookupResult.pair (r : LookupResult) : String × String :=
  (r.Label, r.Data)

/-- The decoded text of a message, the empty string when its body does not
decode. -/
def decodedText {ε : Type} (lib : Lib ε) (content : Message) : String :=
  match lib.DecodeString (encodedBody content) with
  | .ok t => t
  | .error _ => ""

/-! ## A model of `encoding/base64` (RFC 4648), padded and non-strict

Bytes are natural numbers below 256.  Shifts and masks of the Go code are
written as products, quotients and remainders: for bytes and 6-bit values the
bit-wise "or" of the shifted operands is their sum. -/

/-- The error `base64.CorruptInputError`; the byte offset it carries in Go is
left out. -/
inductive CorruptInputError where
  | corrupt
deriving Repr, DecidableEq

/-- An encoding: its 64-character alphabet.  The padding character is `=`
(`StdPadding`) and decoding is not strict, as for `StdEncoding` and
`URLEncoding`. -/
structure Encoding where
  encode : List Char

/-- The alphabet of `base64.StdEncoding`. -/
def encodeStd : List Char :=
  "ABCDEFGHIJKLMNOPQRSTUVWXYZabcdefghijklmnopqrstuvwxyz0123456789+/".data

/-- The alphabet of `base64.URLEncoding`. -/
def encodeURL : List Char :=
  "ABCDEFGHIJKLMNOPQRSTUVWXYZabcdefghijklmnopqrstuvwxyz0123456789-_".data

/-- The encoding `base64.StdEncoding`. -/
def StdEncoding : Encoding := ⟨encodeStd⟩

/-- The encoding `base64.URLEncoding`. -/
def URLEncoding : Encoding := ⟨encodeURL⟩

/-- The character for the 6-bit value `v` (`enc.encode[v]`). -/
def Encoding.sym (enc : Encoding) (v : Nat) : Char :=
  enc.encode.getD v '='

/-- The table `enc.decodeMap`: the 6-bit value of a character of the alphabet,
`none` (0xff) for any other character. -/
def Encoding.decodeMap (enc : Encoding) (c : Char) : Option Nat :=
  if enc.encode.indexOf c < enc.encode.length then some (enc.encode.indexOf c) else none

/-- Modelled from the spec: the method `Encode` of Go's `encoding/base64`, which
is not under `src/` (the spec's "URL-safe base64 variant" of the producer).
Three bytes give four characters; a rest of one or two bytes is padded with
`=`. -/
def Encoding.Encode (enc : Encoding) : List Nat → List Char
  | [] => []
  | [a] =>
    let val := a * 65536
    [enc.sym (val / 262144 % 64), enc.sym (val / 4096 % 64), '=', '=']
  | [a, b] =>
    let val := a * 65536 + b * 256
    [enc.sym (val / 262144 % 64), enc.sym (val / 4096 % 64), enc.sym (val / 64 % 64), '=']
  | a :: b :: c :: rest =>
    let val := a * 65536 + b * 256 + c
    enc.sym (val / 262144 % 64) :: enc.sym (val / 4096 % 64) :: enc.sym (val / 64 % 64) ::
      enc.sym (val % 64) :: enc.Encode rest

/-- The method `EncodeToString`. -/
def Encoding.EncodeToString (enc : Encoding) (src : List Nat) : String :=
  String.mk (enc.Encode src)

/-- Drop leading `\n` and `\r`. -/
def skipNewlines : List Char → List Char
  | [] => []
  | c :: cs => if c = '\n' ∨ c = '\r' then skipNewlines cs else c :: cs

/-- The bytes of a quantum of `dbuf.length` 6-bit values (2, 3 or 4 of them):
the end of `decodeQuantum`. -/
def quantumBytes (dbuf : List Nat) : List Nat :=
  let val := dbuf.getD 0 0 * 262144 + dbuf.getD 1 0 * 4096 + dbuf.getD 2 0 * 64 + dbuf.getD 3 0
  [val / 65536 % 256, val / 256 % 256, val % 256].take (dbuf.length - 1)

/-- Modelled from the spec: the "standard base64 decoding" of the spec, Go's
`encoding/base64`, which is not under `src/`.  The loop of `Decode` over
`decodeQuantum`: `dbuf` holds the 6-bit values
of the quantum being read, `dst` the bytes decoded so far.  Newlines are
skipped; the input may end only between quanta; `=` is accepted as the third
and fourth or as the fourth character of the last quantum, and only newlines
may follow it. -/
def Encoding.decodeLoop (enc : Encoding) :
    List Char → List Nat → List Nat → Except CorruptInputError (List Nat)
  | [], dbuf, dst => if dbuf = [] then .ok dst else .error .corrupt
  | c :: src, dbuf, dst =>
    match enc.decodeMap c with
    | some out =>
      if dbuf.length = 3 then
        enc.decodeLoop src [] (dst ++ quantumBytes (dbuf ++ [out]))
      else
        enc.decodeLoop src (dbuf ++ [out]) dst
    | none =>
      if c = '\n' ∨ c = '\r' then
        enc.decodeLoop src dbuf dst
      else if c ≠ '=' then
        .error .corrupt
      else if dbuf.length < 2 then
        .error .corrupt
      else if dbuf.length = 2 then
        match skipNewlines src with
        | [] => .error .corrupt
        | c2 :: src2 =>
          if c2 ≠ '=' then .error .corrupt
          else if skipNewlines src2 ≠ [] then .error .corrupt
          else .ok (dst ++ quantumBytes dbuf)
      else
        if skipNewlines src ≠ [] then .error .corrupt
        else .ok (dst ++ quantumBytes dbuf)

/-- Modelled from the spec: the method `DecodeString` of Go's `encoding/base64`
(not under `src/`), without the bytes it returns next to an error. -/
def Encoding.DecodeString (enc : Encoding) (s : String) :
    Except CorruptInputError (List Nat) :=
  enc.decodeLoop s.data [] []

/-- A continuation byte of UTF-8, `10xxxxxx`. -/
def isCont (b : Nat) : Bool :=
  decide (128 ≤ b ∧ b < 192)

/-- The range Go's `unicode/utf8` accepts for the second byte after the first
byte `b0` of a sequence of three or four bytes. -/
def secondOk (b0 b1 : Nat) : Bool :=
  if b0 = 224 then decide (160 ≤ b1 ∧ b1 ≤ 191)
  else if b0 = 237 then decide (128 ≤ b1 ∧ b1 ≤ 159)
  else if b0 = 240 then decide (144 ≤ b1 ∧ b1 ≤ 191)
  else if b0 = 244 then decide (128 ≤ b1 ∧ b1 ≤ 143)
  else isCont b1

/-- Modelled from the spec: the function `utf8.DecodeRune` of Go's `unicode/utf8`,
which is not under `src/`: the first rune of `p` and its width in bytes.  A
byte that does not start a well-formed sequence is the rune `U+FFFD` of width
1. -/
def DecodeRune (p : List Nat) : Char × Nat :=
  match p with
  | [] => (Char.ofNat 65533, 0)
  | b0 :: _ =>
    if b0 < 128 then
      (Char.ofNat b0, 1)
    else if 194 ≤ b0 ∧ b0 ≤ 223 then
      match p[1]? with
      | some b1 =>
        if isCont b1 then (Char.ofNat (b0 % 32 * 64 + b1 % 64), 2) else (Char.ofNat 65533, 1)
      | none => (Char.ofNat 65533, 1)
    else if 224 ≤ b0 ∧ b0 ≤ 239 then
      match p[1]?, p[2]? with
      | some b1, some b2 =>
        if secondOk b0 b1 ∧ isCont b2 then
          (Char.ofNat (b0 % 16 * 4096 + b1 % 64 * 64 + b2 % 64), 3)
        else (Char.ofNat 65533, 1)
      | _, _ => (Char.ofNat 65533, 1)
    else if 240 ≤ b0 ∧ b0 ≤ 244 then
      match p[1]?, p[2]?, p[3]? with
      | some b1, some b2, some b3 =>
        if secondOk b0 b1 ∧ isCont b2 ∧ isCont b3 then
          (Char.ofNat (b0 % 8 * 262144 + b1 % 64 * 4096 + b2 % 64 * 64 + b3 % 64), 4)
        else (Char.ofNat 65533, 1)
      | _, _, _ => (Char.ofNat 65533, 1)
    else
      (Char.ofNat 65533, 1)

/-- The runes of a byte string, one `DecodeRune` after the other, as `regexp`
and a `range` loop read a Go string; `fuel` bounds the number of runes. -/
def decodeRunes : Nat → List Nat → List Char
  | 0, _ => []
  | _ + 1, [] => []
  | fuel + 1, b :: bs =>
    (DecodeRune (b :: bs)).1 :: decodeRunes fuel ((b :: bs).drop (DecodeRune (b :: bs)).2)

/-- The conversion `string(decoded)`: the Go string has the bytes `decoded`,
the Lean string its runes.  Exact when `decoded` is well-formed UTF-8; each
other byte shows as `U+FFFD`, which is how `regexp` reads it. -/
def bytesToString (decoded : List Nat) : String :=
  String.mk (decodeRunes decoded.length decoded)

deriving instance DecidableEq for Except

/-! ## A model of `regexp` for the syntax the rules use

Literals, `.`, the Perl classes `\d \s \w` and their negations, escaped
punctuation, concatenation, `|`, capturing groups and the greedy operators
`* + ?`.  Matching is leftmost-first: the leftmost start position wins, and at
that position the first match a backtracking search finds, greedy operators
trying the longer alternative first.  Text is matched rune by rune.  What the
library does with a pattern outside this syntax is a parameter (`rest` in
`MustCompile`). -/

/-- Abstract syntax of a pattern; `group i r` is capture group `i`. -/
inductive Re where
  | empty
  | lit (c : Char)
  | anyNotNL
  | digit (neg : Bool)
  | space (neg : Bool)
  | word (neg : Bool)
  | cat (a b : Re)
  | alt (a b : Re)
  | star (r : Re)
  | plus (r : Re)
  | quest (r : Re)
  | group (i : Nat) (r : Re)
deriving Repr, DecidableEq

/-- The class `\d`. -/
def isDigit (c : Char) : Bool :=
  decide ('0' ≤ c ∧ c ≤ '9')

/-- The class `\s`: tab, newline, form feed, carriage return, space. -/
def isSpace (c : Char) : Bool :=
  c = '\t' || c = '\n' || c = Char.ofNat 12 || c = '\r' || c = ' '

/-- The class `\w`. -/
def isWord (c : Char) : Bool :=
  decide ('0' ≤ c ∧ c ≤ '9') || decide ('A' ≤ c ∧ c ≤ 'Z') || decide ('a' ≤ c ∧ c ≤ 'z') ||
    c = '_'

/-- ASCII letters and digits. -/
def isAlnum (c : Char) : Bool :=
  decide ('0' ≤ c ∧ c ≤ '9') || decide ('A' ≤ c ∧ c ≤ 'Z') || decide ('a' ≤ c ∧ c ≤ 'z')

/-- The pattern can match the empty text. -/
def Re.nullable : Re → Bool
  | .empty => true
  | .lit _ => false
  | .anyNotNL => false
  | .digit _ => false
  | .space _ => false
  | .word _ => false
  | .cat a b => a.nullable && b.nullable
  | .alt a b => a.nullable || b.nullable
  | .star _ => true
  | .plus r => r.nullable
  | .quest _ => true
  | .group _ r => r.nullable

/-- The pattern that matches the characters `p` and then `r`. -/
def Re.lits (p : List Char) (r : Re) : Re :=
  p.foldr (fun c acc => Re.cat (Re.lit c) acc) r

/-- Capture groups set so far, the most recent first. -/
abbrev Caps := List (Nat × List Char)

/-- Match one character satisfying `p`, then continue with `k`. -/
def matchChar {α : Type} (p : Char → Bool) (s : List Char) (caps : Caps)
    (k : List Char → Caps → Option α) : Option α :=
  match s with
  | [] => none
  | x :: xs => if p x then k xs caps else none

/-- Greedy iteration of `step`: one more iteration first, which has to consume
at least one character, the continuation `k` otherwise.  `fuel` bounds the
number of iterations; the length of the text is enough. -/
def starK {α : Type}
    (step : List Char → Caps → (List Char → Caps → Option α) → Option α) :
    Nat → List Char → Caps → (List Char → Caps → Option α) → Option α
  | 0, s, caps, k => k s caps
  | fuel + 1, s, caps, k =>
    match step s caps (fun s' caps' =>
        if s'.length < s.length then starK step fuel s' caps' k else none) with
    | some res => some res
    | none => k s caps

/-- Modelled from the spec: the matching of Go's `regexp`, which is not under
`src/` (the spec's "first match" and "capture group 1").  Backtracking match
of `r` at the head of `s`; `k` receives the rest of the
text and the captures, and a `none` from it makes the search backtrack. -/
def Re.matchK {α : Type} : Re → List Char → Caps →
    (List Char → Caps → Option α) → Option α
  | .empty, s, caps, k => k s caps
  | .lit c, s, caps, k => matchChar (fun x => x = c) s caps k
  | .anyNotNL, s, caps, k => matchChar (fun x => x ≠ '\n') s caps k
  | .digit neg, s, caps, k => matchChar (fun x => isDigit x != neg) s caps k
  | .space neg, s, caps, k => matchChar (fun x => isSpace x != neg) s caps k
  | .word neg, s, caps, k => matchChar (fun x => isWord x != neg) s caps k
  | .cat a b, s, caps, k => a.matchK s caps (fun s' caps' => b.matchK s' caps' k)
  | .alt a b, s, caps, k =>
    match a.matchK s caps k with
    | some res => some res
    | none => b.matchK s caps k
  | .star r, s, caps, k => starK (fun s' caps' k' => r.matchK s' caps' k') s.length s caps k
  | .plus r, s, caps, k =>
    r.matchK s caps (fun s' caps' =>
      starK (fun s'' caps'' k' => r.matchK s'' caps'' k') s'.length s' caps' k)
  | .quest r, s, caps, k =>
    match r.matchK s caps k with
    | some res => some res
    | none => k s caps
  | .group i r, s, caps, k =>
    r.matchK s caps (fun s' caps' => k s' ((i, s.take (s.length - s'.length)) :: caps'))

/-- The leftmost match: the matched text and the captures. -/
def Re.search (r : Re) : List Char → Option (List Char × Caps)
  | [] => r.matchK [] [] (fun _ caps => some ([], caps))
  | c :: cs =>
    match r.matchK (c :: cs) [] (fun s' caps =>
        some ((c :: cs).take ((c :: cs).length - s'.length), caps)) with
    | some res => some res
    | none => r.search cs

/-- One level of the pattern being parsed: the alternatives already closed by
`|` and the items of the current concatenation, both latest first, and the
index of the group the level belongs to. -/
structure Frame where
  alts : List Re
  seq : List Re
  idx : Nat

/-- The concatenation of the items `seq` (latest first). -/
def closeSeq (seq : List Re) : Re :=
  seq.foldl (fun acc r => Re.cat r acc) Re.empty

/-- The alternation of a finished level. -/
def Frame.close (f : Frame) : Re :=
  f.alts.foldl (fun acc r => Re.alt r acc) (closeSeq f.seq)

/-- The atom of an escape sequence `\c`: a Perl class, one of `\n \t \r \f`,
or an escaped ASCII character that is not a letter or digit, which stands for
itself. -/
def escapeAtom (c : Char) : Option Re :=
  if c = 'd' then some (.digit false)
  else if c = 'D' then some (.digit true)
  else if c = 's' then some (.space false)
  else if c = 'S' then some (.space true)
  else if c = 'w' then some (.word false)
  else if c = 'W' then some (.word true)
  else if c = 'n' then some (.lit '\n')
  else if c = 't' then some (.lit '\t')
  else if c = 'r' then some (.lit '\r')
  else if c = 'f' then some (.lit (Char.ofNat 12))
  else if c.toNat < 128 ∧ ¬ isAlnum c then some (.lit c)
  else none

/-- The parser: one pass over the pattern with a stack of open groups.
`canRep` tells whether a repetition operator may follow.  The result is the
syntax tree and the number of capture groups; `none` is a pattern outside the
modelled syntax: one that Go rejects, or one with bracket classes, counted
repetition, anchors, flags, non-greedy operators, other escapes, or `*` or `+`
applied to a pattern that can match the empty text. -/
def parseLoop : List Char → List Frame → Frame → Nat → Bool → Option (Re × Nat)
  | [], stack, cur, n, _ => if stack.isEmpty then some (cur.close, n) else none
  | '\\' :: c :: rest, stack, cur, n, _ =>
    match escapeAtom c with
    | none => none
    | some a => parseLoop rest stack { cur with seq := a :: cur.seq } n true
  | c :: rest, stack, cur, n, canRep =>
    if c = '(' then
      if rest.head? = some '?' then none
      else parseLoop rest (cur :: stack) { alts := [], seq := [], idx := n + 1 } (n + 1) false
    else if c = ')' then
      match stack with
      | [] => none
      | parent :: stack' =>
        parseLoop rest stack' { parent with seq := Re.group cur.idx cur.close :: parent.seq } n true
    else if c = '|' then
      parseLoop rest stack { cur with alts := closeSeq cur.seq :: cur.alts, seq := [] } n false
    else if c = '*' ∨ c = '+' ∨ c = '?' then
      match canRep, cur.seq with
      | true, x :: xs =>
        if c = '?' then
          parseLoop rest stack { cur with seq := Re.quest x :: xs } n false
        else if x.nullable then
          none
        else
          let q := if c = '*' then Re.star x else Re.plus x
          parseLoop rest stack { cur with seq := q :: xs } n false
      | _, _ => none
    else if c = '.' then
      parseLoop rest stack { cur with seq := Re.anyNotNL :: cur.seq } n true
    else if c = '\\' ∨ c = '[' ∨ c = '{' ∨ c = '^' ∨ c = '$' then
      none
    else
      parseLoop rest stack { cur with seq := Re.lit c :: cur.seq } n true

/-- The syntax tree and the number of groups of a pattern. -/
def parse (pattern : String) : Option (Re × Nat) :=
  parseLoop pattern.data [] { alts := [], seq := [], idx := 0 } 0 false

/-- The slice `FindStringSubmatch` returns for a search result: the matched
text, then the text of groups `1 .. n`, empty for a group that took no part. -/
def submatches (n : Nat) (res : List Char × Caps) : List String :=
  String.mk res.1 :: (List.range n).map (fun i => String.mk ((res.2.lookup (i + 1)).getD []))

/-- The compiled form of a syntax tree with `n` groups. -/
def Regexp.ofRe (r : Re) (n : Nat) : Regexp :=
  ⟨fun text => (r.search text.data).map (submatches n)⟩

/-- Modelled from the spec: the call `regexp.MustCompile` of Go's `regexp`, which
is not under `src/`.  A pattern of the modelled syntax compiles to its syntax
tree; for any other pattern the model says nothing, and `rest` stands for what
the library does with it (`none` for a panic). -/
def MustCompile (rest : String → Option Regexp) (pattern : String) : Option Regexp :=
  match parse pattern with
  | some p => some (Regexp.ofRe p.1 p.2)
  | none => rest pattern

/-- Modelled from the spec: the standard library calls of `main` (Go's
`encoding/base64` and `regexp`, not under `src/`), by the models above; `rest`
is the library's behaviour on patterns outside the modelled syntax. -/
def goLib (rest : String → Option Regexp) : Lib CorruptInputError :=
  { DecodeString := fun s => (StdEncoding.DecodeString s).map bytesToString
    MustCompile := MustCompile rest }

/-- The modelled library with a panic for every pattern outside the modelled
syntax: the instance on which runs with modelled patterns are evaluated. -/
def goLibStrict : Lib CorruptInputError :=
  goLib (fun _ => none)

/-- The match of `r` that starts at the head of `s`, if there is one: the
matched text and the captures. -/
def Re.matchAt (r : Re) (s : List Char) : Option (List Char × Caps) :=
  r.matchK s [] (fun s' caps => some (s.take (s.length - s'.length), caps))

/-- The pattern is of the modelled syntax and has a match that starts at the
head of `s`. -/
def matchesAt (pattern : String) (s : List Char) : Bool :=
  match parse pattern with
  | some p => (p.1.matchAt s).isSome
  | none => false

/-- Both patterns of every rule are of the modelled syntax. -/
def modelled (rules : List Lookup) : Bool :=
  rules.all (fun r => (parse r.DataRegex).isSome && (parse r.LabelRegex).isSome)

/-- The pattern is of the modelled syntax and has at least one capture group. -/
def hasGroup (pattern : String) : Bool :=
  match parse pattern with
  | some p => decide (0 < p.2)
  | none => false

deriving instance DecidableEq for Output
deriving instance DecidableEq for State
deriving instance DecidableEq for Flow

/-! ## Example inputs -/

/-- A childless part. -/
def leaf (mimeType data : String) : MessagePart :=
  .mk mimeType [] ⟨data⟩ []

/-- A container part. -/
def multipart (mimeType : String) (parts : List MessagePart) : MessagePart :=
  .mk mimeType [] ⟨""⟩ parts

/-- The URL-safe base64 encoding of `<b>hi</b>`. -/
def hiBody : String := "PGI-aGk8L2I-"

/-- The URL-safe base64 encoding of
`We've found <b> 12 </b> new jobs for you: <b>software in Wellington</b> posted a short while ago`. -/
def wellingtonBody : String :=
  "V2UndmUgZm91bmQgPGI-IDEyIDwvYj4gbmV3IGpvYnMgZm9yIHlvdTogPGI-c29mdHdhcmUgaW4gV2VsbGluZ3RvbjwvYj4gcG9zdGVkIGEgc2hvcnQgd2hpbGUgYWdv"

/-- The URL-safe base64 encoding of
`We've found <b>3</b> new jobs: <b>software in Auckland</b> posted a short while ago`. -/
def aucklandBody : String :=
  "V2UndmUgZm91bmQgPGI-MzwvYj4gbmV3IGpvYnM6IDxiPnNvZnR3YXJlIGluIEF1Y2tsYW5kPC9iPiBwb3N0ZWQgYSBzaG9ydCB3aGlsZSBhZ28="

/-- A part list whose first part is a container holding only a plain-text
leaf and whose second part is an HTML leaf. -/
def containerThenHtml : List MessagePart :=
  [multipart "multipart/related" [leaf "text/plain" "cGxhaW4="], leaf "text/html" hiBody]

/-- A part list without any HTML leaf: containers and other leaves only. -/
def noHtmlParts : List MessagePart :=
  [leaf "text/plain" "cGxhaW4=",
   multipart "multipart/mixed" [multipart "multipart/related" [leaf "image/png" "iVBORw0KGgo="]],
   leaf "application/pdf" "JVBERi0="]

/-- A message that consists of a single `text/html` part: the root payload
carries the body and has no child parts. -/
def singlePartHtml : Message :=
  { Id := "m-single"
    Payload := .mk "text/html"
      [⟨"From", "jobs@example.org"⟩, ⟨"Subject", "New jobs"⟩] ⟨wellingtonBody⟩ [] }

/-- A `multipart/alternative` message with a plain-text and an HTML part. -/
def htmlMessage (id body : String) : Message :=
  { Id := id
    Payload := .mk "multipart/alternative"
      [⟨"To", "me@example.org"⟩, ⟨"From", "jobs@example.org"⟩, ⟨"From", "other@example.org"⟩]
      ⟨""⟩ [leaf "text/plain" "cGxhaW4=", leaf "text/html" body] }

/-- A client whose mail service knows exactly the message `m`. -/
def clientOf (m : Message) : GmailClient String :=
  { get := fun id => if id = m.Id then .ok m else .error "not found" }

/-- The rule of the specification's example. -/
def foundRule : Lookup :=
  { DataRegex := "found <b>\\s*(\\d+)\\s*</b>", LabelRegex := "<b>software in (.+)</b> posted" }

/-- A second rule: the digit before ` </b>` and the word after `in `. -/
def digitRule : Lookup :=
  { DataRegex := "(\\d) </b>", LabelRegex := "in (\\w+)" }

/-- The text of the specification's example. -/
def foundText : String :=
  "...found <b> 7 </b>... <b>software in Acme</b> posted a short while..."

/-- The fragment with the data of the specification's example. -/
def dataFragment : String := "found <b> 7 </b>"

/-- The fragment with the label of the specification's example. -/
def labelFragment : String := "<b>software in Acme</b> posted a short while"

/-- A text with only the label fragment. -/
def labelOnlyText : String := "... <b>software in Acme</b> posted a short while..."

/-- A rule set with the rule of `main` followed by `digitRule`. -/
def twoRules : LookupSet :=
  { GmailLabel := "Seek", Lookups := allLookups.Lookups ++ [digitRule], LookupResults := [] }

/-- A body that is not valid base64: the last quantum has three characters and
no padding. -/
def malformedBody : String := "PGI-aGk8L2I"

/-- Five messages, the third with a malformed body. -/
def fiveMessages : List Message :=
  [htmlMessage "m1" wellingtonBody, htmlMessage "m2" aucklandBody,
   htmlMessage "m3" malformedBody, htmlMessage "m4" wellingtonBody,
   htmlMessage "m5" aucklandBody]

/-- A text that contains the data fragment and, later, the label fragment of
the specification's example, after an earlier match of the data pattern. -/
def earlierMatchText : String :=
  "found <b> 3 </b>, later " ++ dataFragment ++ " and " ++ labelFragment ++ " ago"

/-- The characters of `dataFragment`. -/
def dataChars : List Char :=
  ['f', 'o', 'u', 'n', 'd', ' ', '<', 'b', '>', ' ', '7', ' ', '<', '/', 'b', '>']

/-- The characters of `labelFragment`. -/
def labelChars : List Char :=
  ['<', 'b', '>', 's', 'o', 'f', 't', 'w', 'a', 'r', 'e', ' ', 'i', 'n', ' ', 'A', 'c', 'm',
   'e', '<', '/', 'b', '>', ' ', 'p', 'o', 's', 't', 'e', 'd', ' ', 'a', ' ', 's', 'h', 'o',
   'r', 't', ' ', 'w', 'h', 'i', 'l', 'e']

/-- The syntax tree of the data pattern of `foundRule`. -/
def foundDataRe : Re :=
  Re.lits ['f', 'o', 'u', 'n', 'd', ' ', '<', 'b', '>']
    (.cat (.star (.space false))
      (.cat (.group 1 (.cat (.plus (.digit false)) .empty))
        (.cat (.star (.space false)) (Re.lits ['<', '/', 'b', '>'] .empty))))

/-- The syntax tree of the label pattern of `foundRule`. -/
def foundLabelRe : Re :=
  Re.lits ['<', 'b', '>', 's', 'o', 'f', 't', 'w', 'a', 'r', 'e', ' ', 'i', 'n', ' ']
    (.cat (.group 1 (.cat (.plus .anyNotNL) .empty))
      (Re.lits ['<', '/', 'b', '>', ' ', 'p', 'o', 's', 't', 'e', 'd'] .empty))

/-- A text with both fragments in which `</b> posted` occurs once more on the
line of the label fragment. -/
def laterPostedText : String :=
  dataFragment ++ " and " ++ labelFragment ++ " ago, <b>more</b> posted"

/-- A text with both fragments after an earlier match of the label pattern. -/
def earlierLabelText : String :=
  "<b>software in Otago</b> posted\n" ++ dataFragment ++ " and " ++ labelFragment ++ " ago"

/-- The characters of `</b> posted`, the literal that ends the label pattern. -/
def postedChars : List Char :=
  ['<', '/', 'b', '>', ' ', 'p', 'o', 's', 't', 'e', 'd']

/-! ## Properties of the body resolver and of the header lookup -/

theorem getMessageBody_eq_empty_of_no_leaf (parts : List MessagePart)
    (h : htmlLeaves parts = []) : getMessageBody parts = "" := by
  induction parts using getMessageBody.induct with
  | case1 => simp [getMessageBody]
  | case2 mimeType hd body parts rest hlen ih =>
    simp only [htmlLeaves, hlen, if_true, List.append_eq_nil] at h
    simp only [getMessageBody, hlen, if_true]
    exact ih h.1
  | case3 hd body parts rest hlen =>
    simp [htmlLeaves, hlen] at h
  | case4 mimeType hd body parts rest hlen hmime ih =>
    simp only [htmlLeaves, hlen, hmime, if_false, List.nil_append] at h
    simp only [getMessageBody, hlen, hmime, if_false]
    exact ih h

theorem getMessageHeader_append (pre post : List MessagePartHeader) (h : MessagePartHeader)
    (wanted : String) (hpre : ∀ x ∈ pre, x.Name ≠ wanted) (hh : h.Name = wanted) :
    getMessageHeader (pre ++ h :: post) wanted = h.Value := by
  induction pre with
  | nil => simp [getMessageHeader, hh]
  | cons x xs ih =>
    have hx : x.Name ≠ wanted := hpre x (List.mem_cons_self _ _)
    simp only [List.cons_append, getMessageHeader, hx, if_false]
    exact ih (fun y hy => hpre y (List.mem_cons_of_mem _ hy))

theorem getMessageHeader_absent (headers : List MessagePartHeader) (wanted : String)
    (hno : ∀ x ∈ headers, x.Name ≠ wanted) : getMessageHeader headers wanted = "" := by
  induction headers with
  | nil => simp [getMessageHeader]
  | cons x xs ih =>
    have hx : x.Name ≠ wanted := hno x (List.mem_cons_self _ _)
    simp only [getMessageHeader, hx, if_false]
    exact ih (fun y hy => hno y (List.mem_cons_of_mem _ hy))

/-! ## Properties of the loop of `main` -/

section Pipeline

variable {ε : Type}

theorem firstCapture_of_match (lib : Lib ε) (pattern text : String) (re : Regexp)
    (hc : lib.MustCompile pattern = some re) :
    firstCapture lib pattern text =
      (re.FindStringSubmatch text).bind (fun m => m[1]?) := by
  unfold firstCapture
  rw [hc]
  cases hm : re.FindStringSubmatch text <;> simp [hm]

/-- One rule on one text, for a well-formed rule: control goes on, the new
results are those of `ruleOutput`, and no result line is printed. -/
theorem lookupStep_ok (lib : Lib ε) (decoded : String) (st : State ε) (lookup : Lookup)
    (hok : RuleOK lib lookup) :
    ∃ new lines, lookupStep lib decoded st lookup =
        .next { lookupResults := st.lookupResults ++ new, stdout := st.stdout ++ lines } ∧
      new.map LookupResult.pair = ruleOutput lib decoded lookup ∧
      lines.filterMap Output.resultPair = [] := by
  obtain ⟨d, l, hd, hl, hdlen, hllen⟩ := hok
  unfold lookupStep ruleOutput
  rw [firstCapture_of_match lib _ _ d hd, firstCapture_of_match lib _ _ l hl]
  simp only [hd, hl]
  cases hdm : d.FindStringSubmatch decoded with
  | none =>
    refine ⟨[], [.noDataOrLabel none (l.FindStringSubmatch decoded)], ?_, ?_, ?_⟩
    · cases l.FindStringSubmatch decoded <;> simp
    · simp
    · simp [Output.resultPair]
  | some dm =>
    cases hlm : l.FindStringSubmatch decoded with
    | none =>
      refine ⟨[], [.noDataOrLabel (some dm) none], ?_, ?_, ?_⟩
      · simp
      · simp
      · simp [Output.resultPair]
    | some lm =>
      have h1 := hdlen decoded dm hdm
      have h2 := hllen decoded lm hlm
      obtain ⟨data, hdata⟩ : ∃ x, dm[1]? = some x :=
        ⟨dm[1], List.getElem?_eq_getElem h1⟩
      obtain ⟨label, hlabel⟩ : ∃ x, lm[1]? = some x :=
        ⟨lm[1], List.getElem?_eq_getElem h2⟩
      refine ⟨[{ Data := data, Label := label, LookupUsed := none }], [], ?_, ?_, ?_⟩
      · simp [hdata, hlabel]
      · simp [hdata, hlabel, LookupResult.pair]
      · simp

theorem forLookups_ok (lib : Lib ε) (decoded : String) (rules : List Lookup)
    (hok : ∀ r ∈ rules, RuleOK lib r) (st : State ε) :
    ∃ new lines, forLookups lib decoded rules st =
        .next { lookupResults := st.lookupResults ++ new, stdout := st.stdout ++ lines } ∧
      new.map LookupResult.pair = rules.flatMap (ruleOutput lib decoded) ∧
      lines.filterMap Output.resultPair = [] := by
  induction rules generalizing st with
  | nil => exact ⟨[], [], by simp [forLookups], by simp, by simp⟩
  | cons r rs ih =>
    obtain ⟨n1, l1, h1, hn1, hl1⟩ :=
      lookupStep_ok lib decoded st r (hok r (List.mem_cons_self _ _))
    obtain ⟨n2, l2, h2, hn2, hl2⟩ :=
      ih (fun x hx => hok x (List.mem_cons_of_mem _ hx))
        { lookupResults := st.lookupResults ++ n1, stdout := st.stdout ++ l1 }
    refine ⟨n1 ++ n2, l1 ++ l2, ?_, ?_, ?_⟩
    · simp only [forLookups, h1, h2, List.append_assoc]
    · simp [hn1, hn2]
    · simp [List.filterMap_append, hl1, hl2]

theorem forContents_ok (lib : Lib ε) (set : LookupSet) (texts : Message → String)
    (contents : List Message)
    (hok : ∀ r ∈ set.Lookups, RuleOK lib r)
    (hdec : ∀ m ∈ contents, lib.DecodeString (encodedBody m) = .ok (texts m))
    (st : State ε) :
    ∃ new lines, forContents lib set contents st =
        .next { lookupResults := st.lookupResults ++ new, stdout := st.stdout ++ lines } ∧
      new.map LookupResult.pair =
        contents.flatMap (fun m => set.Lookups.flatMap (ruleOutput lib (texts m))) ∧
      lines.filterMap Output.resultPair = [] := by
  induction contents generalizing st with
  | nil => exact ⟨[], [], by simp [forContents], by simp, by simp⟩
  | cons m ms ih =>
    have hm := hdec m (List.mem_cons_self _ _)
    unfold encodedBody at hm
    obtain ⟨n1, l1, h1, hn1, hl1⟩ := forLookups_ok lib (texts m) set.Lookups hok st
    obtain ⟨n2, l2, h2, hn2, hl2⟩ :=
      ih (fun x hx => hdec x (List.mem_cons_of_mem _ hx))
        { lookupResults := st.lookupResults ++ n1, stdout := st.stdout ++ l1 }
    refine ⟨n1 ++ n2, l1 ++ l2, ?_, ?_, ?_⟩
    · simp only [forContents, contentStep, hm, h1, h2, List.append_assoc]
    · simp [hn1, hn2]
    · simp [List.filterMap_append, hl1, hl2]

theorem forContents_append (lib : Lib ε) (set : LookupSet) (pre post : List Message)
    (st : State ε) :
    forContents lib set (pre ++ post) st =
      match forContents lib set pre st with
      | .next st' => forContents lib set post st'
      | stop => stop := by
  induction pre generalizing st with
  | nil => simp [forContents]
  | cons m ms ih =>
    simp only [List.cons_append, forContents]
    cases contentStep lib set st m with
    | next st' => simpa using ih st'
    | ret st' => rfl
    | panic st' => rfl

/-- Every result the rule step appends has a nil `LookupUsed`. -/
theorem lookupStep_lookupUsed (lib : Lib ε) (decoded : String) (st : State ε)
    (lookup : Lookup) (h : ∀ r ∈ st.lookupResults, r.LookupUsed = none) :
    ∀ r ∈ (lookupStep lib decoded st lookup).state.lookupResults, r.LookupUsed = none := by
  unfold lookupStep
  cases lib.MustCompile lookup.DataRegex with
  | none => simpa [Flow.state] using h
  | some d =>
    cases lib.MustCompile lookup.LabelRegex with
    | none => simpa [Flow.state] using h
    | some l =>
      simp only
      cases d.FindStringSubmatch decoded with
      | none => simpa [Flow.state] using h
      | some dm =>
        cases l.FindStringSubmatch decoded with
        | none => simpa [Flow.state] using h
        | some lm =>
          simp only
          cases dm[1]? with
          | none => simpa [Flow.state] using h
          | some data =>
            cases lm[1]? with
            | none => simpa [Flow.state] using h
            | some label =>
              intro r hr
              simp only [Flow.state, List.mem_append, List.mem_singleton] at hr
              rcases hr with hr | hr
              · exact h r hr
              · rw [hr]

theorem forLookups_lookupUsed (lib : Lib ε) (decoded : String) (rules : List Lookup)
    (st : State ε) (h : ∀ r ∈ st.lookupResults, r.LookupUsed = none) :
    ∀ r ∈ (forLookups lib decoded rules st).state.lookupResults, r.LookupUsed = none := by
  induction rules generalizing st with
  | nil => simpa [forLookups, Flow.state] using h
  | cons x xs ih =>
    have hx := lookupStep_lookupUsed lib decoded st x h
    unfold forLookups
    cases hs : lookupStep lib decoded st x with
    | next st' =>
      rw [hs] at hx
      exact ih st' hx
    | ret st' => rw [hs] at hx; exact hx
    | panic st' => rw [hs] at hx; exact hx

theorem forContents_lookupUsed (lib : Lib ε) (set : LookupSet) (contents : List Message)
    (st : State ε) (h : ∀ r ∈ st.lookupResults, r.LookupUsed = none) :
    ∀ r ∈ (forContents lib set contents st).state.lookupResults, r.LookupUsed = none := by
  induction contents generalizing st with
  | nil => simpa [forContents, Flow.state] using h
  | cons m ms ih =>
    have hm : ∀ r ∈ (contentStep lib set st m).state.lookupResults, r.LookupUsed = none := by
      unfold contentStep
      simp only
      cases lib.DecodeString
          (ReplaceAll (ReplaceAll (getMessageBody m.Payload.Parts) "-" "+") "_" "/") with
      | error e => simpa [Flow.state] using h
      | ok decoded => exact forLookups_lookupUsed lib decoded set.Lookups st h
    unfold forContents
    cases hs : contentStep lib set st m with
    | next st' =>
      rw [hs] at hm
      exact ih st' hm
    | ret st' => rw [hs] at hm; exact hm
    | panic st' => rw [hs] at hm; exact hm

end Pipeline

/-! ## The decoder inverts the producer's encoding -/

theorem replaceAllAux_single (a b : Char) (s : List Char) (fuel : Nat)
    (h : s.length < fuel) :
    replaceAllAux [a] [b] fuel s = s.map (fun c => if c = a then b else c) := by
  induction s generalizing fuel with
  | nil =>
    cases fuel with
    | zero => simp [replaceAllAux]
    | succ n => simp [replaceAllAux]
  | cons c cs ih =>
    cases fuel with
    | zero => simp at h
    | succ n =>
      have hn : cs.length < n := by simpa using h
      by_cases hc : c = a
      · subst hc
        simp [replaceAllAux, List.isPrefixOf, ih n hn]
      · have hc2 : ¬ a = c := fun e => hc e.symm
        simp [replaceAllAux, List.isPrefixOf, ih n hn, hc, hc2]

theorem ReplaceAll_single (s : String) (a b : Char) :
    ReplaceAll s (String.mk [a]) (String.mk [b]) =
      String.mk (s.data.map (fun c => if c = a then b else c)) := by
  have h := replaceAllAux_single a b s.data (s.data.length + 1) (Nat.lt_succ_self _)
  show (if [a] = [] then _ else String.mk (replaceAllAux [a] [b] (s.data.length + 1) s.data)) = _
  rw [if_neg (List.cons_ne_nil _ _), h]

theorem sym_substitute (v : Fin 64) :
    (fun c : Char => if c = '_' then '/' else c)
        ((fun c : Char => if c = '-' then '+' else c) (URLEncoding.sym v)) =
      StdEncoding.sym v := by
  revert v
  decide

theorem decodeMap_sym (v : Fin 64) : StdEncoding.decodeMap (StdEncoding.sym v) = some v.val := by
  revert v
  decide

theorem decodeMap_sym_nat (v : Nat) (h : v < 64) :
    StdEncoding.decodeMap (StdEncoding.sym v) = some v :=
  decodeMap_sym ⟨v, h⟩

theorem decodeMap_pad : StdEncoding.decodeMap '=' = none := by decide

/-- Substituting in the URL-safe encoding gives the standard encoding. -/
theorem Encode_substitute (x : List Nat) :
    ((URLEncoding.Encode x).map (fun c : Char => if c = '-' then '+' else c)).map
        (fun c : Char => if c = '_' then '/' else c) = StdEncoding.Encode x := by
  refine Encoding.Encode.induct URLEncoding (fun x =>
    ((URLEncoding.Encode x).map (fun c : Char => if c = '-' then '+' else c)).map
        (fun c : Char => if c = '_' then '/' else c) = StdEncoding.Encode x) ?_ ?_ ?_ ?_ x
  · simp [Encoding.Encode]
  · intro a
    have h1 := sym_substitute ⟨a * 65536 / 262144 % 64, Nat.mod_lt _ (by decide)⟩
    have h2 := sym_substitute ⟨a * 65536 / 4096 % 64, Nat.mod_lt _ (by decide)⟩
    simp only [Encoding.Encode, List.map_cons, List.map_nil] at *
    rw [h1, h2]
    simp
  · intro a b
    have h1 := sym_substitute ⟨(a * 65536 + b * 256) / 262144 % 64, Nat.mod_lt _ (by decide)⟩
    have h2 := sym_substitute ⟨(a * 65536 + b * 256) / 4096 % 64, Nat.mod_lt _ (by decide)⟩
    have h3 := sym_substitute ⟨(a * 65536 + b * 256) / 64 % 64, Nat.mod_lt _ (by decide)⟩
    simp only [Encoding.Encode, List.map_cons, List.map_nil] at *
    rw [h1, h2, h3]
    simp
  · intro a b c rest ih
    have h1 := sym_substitute ⟨(a * 65536 + b * 256 + c) / 262144 % 64, Nat.mod_lt _ (by decide)⟩
    have h2 := sym_substitute ⟨(a * 65536 + b * 256 + c) / 4096 % 64, Nat.mod_lt _ (by decide)⟩
    have h3 := sym_substitute ⟨(a * 65536 + b * 256 + c) / 64 % 64, Nat.mod_lt _ (by decide)⟩
    have h4 := sym_substitute ⟨(a * 65536 + b * 256 + c) % 64, Nat.mod_lt _ (by decide)⟩
    simp only [Encoding.Encode, List.map_cons] at *
    rw [h1, h2, h3, h4, ih]

theorem decodeLoop_Encode (x : List Nat) :
    (∀ b ∈ x, b < 256) → ∀ dst : List Nat,
      StdEncoding.decodeLoop (StdEncoding.Encode x) [] dst = .ok (dst ++ x) := by
  refine Encoding.Encode.induct StdEncoding (fun x => (∀ b ∈ x, b < 256) → ∀ dst : List Nat,
      StdEncoding.decodeLoop (StdEncoding.Encode x) [] dst = .ok (dst ++ x)) ?_ ?_ ?_ ?_ x
  · intro _ dst
    simp [Encoding.Encode, Encoding.decodeLoop]
  · intro a hx dst
    have ha : a < 256 := hx a (by simp)
    have h1 := decodeMap_sym_nat (a * 65536 / 262144 % 64) (Nat.mod_lt _ (by decide))
    have h2 := decodeMap_sym_nat (a * 65536 / 4096 % 64) (Nat.mod_lt _ (by decide))
    simp only [Encoding.Encode, Encoding.decodeLoop, h1, h2, decodeMap_pad, skipNewlines,
      quantumBytes]
    simp [skipNewlines]
    omega
  · intro a b hx dst
    have ha : a < 256 := hx a (by simp)
    have hb : b < 256 := hx b (by simp)
    have h1 := decodeMap_sym_nat ((a * 65536 + b * 256) / 262144 % 64) (Nat.mod_lt _ (by decide))
    have h2 := decodeMap_sym_nat ((a * 65536 + b * 256) / 4096 % 64) (Nat.mod_lt _ (by decide))
    have h3 := decodeMap_sym_nat ((a * 65536 + b * 256) / 64 % 64) (Nat.mod_lt _ (by decide))
    simp only [Encoding.Encode, Encoding.decodeLoop, h1, h2, h3, decodeMap_pad, skipNewlines,
      quantumBytes]
    simp [skipNewlines]
    omega
  · intro a b c rest ih hx dst
    have ha : a < 256 := hx a (by simp)
    have hb : b < 256 := hx b (by simp)
    have hc : c < 256 := hx c (by simp)
    have hrest : ∀ y ∈ rest, y < 256 := fun y hy => hx y (by simp [hy])
    have h1 := decodeMap_sym_nat ((a * 65536 + b * 256 + c) / 262144 % 64)
      (Nat.mod_lt _ (by decide))
    have h2 := decodeMap_sym_nat ((a * 65536 + b * 256 + c) / 4096 % 64)
      (Nat.mod_lt _ (by decide))
    have h3 := decodeMap_sym_nat ((a * 65536 + b * 256 + c) / 64 % 64) (Nat.mod_lt _ (by decide))
    have h4 := decodeMap_sym_nat ((a * 65536 + b * 256 + c) % 64) (Nat.mod_lt _ (by decide))
    simp only [Encoding.Encode, Encoding.decodeLoop, h1, h2, h3, h4, quantumBytes]
    simp
    rw [ih hrest]
    simp
    omega

/-! ## The modelled library satisfies the assumptions on rules -/

theorem submatches_length (n : Nat) (res : List Char × Caps) :
    (submatches n res).length = n + 1 := by
  simp [submatches]

theorem MustCompile_of_parse (rest : String → Option Regexp) (pattern : String)
    (p : Re × Nat) (h : parse pattern = some p) :
    (goLib rest).MustCompile pattern = some (Regexp.ofRe p.1 p.2) := by
  simp [goLib, MustCompile, h]

theorem MustCompile_of_hasGroup (rest : String → Option Regexp) (pattern : String)
    (h : hasGroup pattern = true) :
    ∃ re, (goLib rest).MustCompile pattern = some re ∧
      ∀ t m, re.FindStringSubmatch t = some m → 1 < m.length := by
  unfold hasGroup at h
  cases hp : parse pattern with
  | none => simp [hp] at h
  | some p =>
    simp only [hp, decide_eq_true_eq] at h
    refine ⟨Regexp.ofRe p.1 p.2, MustCompile_of_parse rest pattern p hp, ?_⟩
    intro t m hm
    simp only [Regexp.ofRe, Option.map_eq_some'] at hm
    obtain ⟨res, _, hres⟩ := hm
    rw [← hres, submatches_length]
    omega

theorem RuleOK_goLib (rest : String → Option Regexp) (lookup : Lookup)
    (hd : hasGroup lookup.DataRegex = true) (hl : hasGroup lookup.LabelRegex = true) :
    RuleOK (goLib rest) lookup := by
  obtain ⟨d, hd1, hd2⟩ := MustCompile_of_hasGroup rest _ hd
  obtain ⟨l, hl1, hl2⟩ := MustCompile_of_hasGroup rest _ hl
  exact ⟨d, l, hd1, hl1, hd2, hl2⟩

/-! ## Runs with modelled patterns do not depend on the rest of the library -/

theorem goLib_MustCompile (rest rest' : String → Option Regexp) (pattern : String)
    (h : (parse pattern).isSome = true) :
    (goLib rest).MustCompile pattern = (goLib rest').MustCompile pattern := by
  cases hp : parse pattern with
  | none => simp [hp] at h
  | some p => rw [MustCompile_of_parse rest pattern p hp, MustCompile_of_parse rest' pattern p hp]

theorem lookupStep_goLib (rest rest' : String → Option Regexp) (text : String)
    (st : State CorruptInputError) (lookup : Lookup)
    (hd : (parse lookup.DataRegex).isSome = true)
    (hl : (parse lookup.LabelRegex).isSome = true) :
    lookupStep (goLib rest) text st lookup = lookupStep (goLib rest') text st lookup := by
  unfold lookupStep
  rw [goLib_MustCompile rest rest' _ hd, goLib_MustCompile rest rest' _ hl]

theorem forLookups_goLib (rest rest' : String → Option Regexp) (text : String)
    (rules : List Lookup) (h : modelled rules = true) (st : State CorruptInputError) :
    forLookups (goLib rest) text rules st = forLookups (goLib rest') text rules st := by
  induction rules generalizing st with
  | nil => rfl
  | cons r rs ih =>
    simp only [modelled, List.all_cons, Bool.and_eq_true] at h
    have hrs : modelled rs = true := by simpa [modelled] using h.2
    simp only [forLookups, lookupStep_goLib rest rest' text st r h.1.1 h.1.2]
    cases lookupStep (goLib rest') text st r with
    | next st' => exact ih hrs st'
    | ret st' => rfl
    | panic st' => rfl

theorem ruleOutput_goLib (rest rest' : String → Option Regexp) (text : String)
    (lookup : Lookup) (hd : (parse lookup.DataRegex).isSome = true)
    (hl : (parse lookup.LabelRegex).isSome = true) :
    ruleOutput (goLib rest) text lookup = ruleOutput (goLib rest') text lookup := by
  unfold ruleOutput firstCapture
  rw [goLib_MustCompile rest rest' _ hd, goLib_MustCompile rest rest' _ hl]

theorem decodedText_goLib (rest rest' : String → Option Regexp) (m : Message) :
    decodedText (goLib rest) m = decodedText (goLib rest') m := rfl

theorem flatMap_ruleOutput_goLib (rest rest' : String → Option Regexp) (text : String)
    (rules : List Lookup) (h : modelled rules = true) :
    rules.flatMap (ruleOutput (goLib rest) text) =
      rules.flatMap (ruleOutput (goLib rest') text) := by
  induction rules with
  | nil => rfl
  | cons r rs ih =>
    simp only [modelled, List.all_cons, Bool.and_eq_true] at h
    have hrs : modelled rs = true := by simpa [modelled] using h.2
    simp only [List.flatMap_cons, ruleOutput_goLib rest rest' text r h.1.1 h.1.2, ih hrs]

/-! ## The whole run -/

section Run

variable {ε : Type}

theorem decodedText_of_ok (lib : Lib ε) (m : Message) (t : String)
    (h : lib.DecodeString (encodedBody m) = .ok t) : decodedText lib m = t := by
  simp [decodedText, h]

theorem filterMap_result_lines (rs : List LookupResult) :
    (rs.map (fun l => (Output.result l.Label l.Data : Output ε))).filterMap Output.resultPair =
      rs.map LookupResult.pair := by
  induction rs with
  | nil => rfl
  | cons r rs ih => simp [Output.resultPair, LookupResult.pair, ih]

theorem mainFrom_ok (lib : Lib ε) (set : LookupSet) (allContent : List Message)
    (hok : ∀ r ∈ set.Lookups, RuleOK lib r)
    (hdec : ∀ m ∈ allContent, ∃ t, lib.DecodeString (encodedBody m) = .ok t) :
    ∃ st, mainFrom lib set allContent = .next st ∧
      st.lookupResults.map LookupResult.pair =
        allContent.flatMap
          (fun m => set.Lookups.flatMap (ruleOutput lib (decodedText lib m))) ∧
      st.stdout.filterMap Output.resultPair = st.lookupResults.map LookupResult.pair := by
  have hdec' : ∀ m ∈ allContent,
      lib.DecodeString (encodedBody m) = .ok (decodedText lib m) := by
    intro m hm
    obtain ⟨t, ht⟩ := hdec m hm
    rw [decodedText_of_ok lib m t ht, ht]
  obtain ⟨new, lines, hrun, hnew, hlines⟩ :=
    forContents_ok lib set (decodedText lib) allContent hok hdec'
      { lookupResults := [], stdout := [.emailsContent] }
  refine ⟨printResults
    { lookupResults := [] ++ new, stdout := [Output.emailsContent] ++ lines }, ?_, ?_, ?_⟩
  · simp only [mainFrom, hrun]
  · simpa [printResults] using hnew
  · simp only [printResults, List.filterMap_append, hlines, filterMap_result_lines]
    simp [Output.resultPair]

theorem mainFrom_decode_error (lib : Lib ε) (set : LookupSet) (pre : List Message)
    (bad : Message) (err : ε)
    (hok : ∀ r ∈ set.Lookups, RuleOK lib r)
    (hpre : ∀ m ∈ pre, ∃ t, lib.DecodeString (encodedBody m) = .ok t)
    (hbad : lib.DecodeString (encodedBody bad) = .error err) :
    ∃ new lines, lines.filterMap Output.resultPair = [] ∧
      ∀ post, mainFrom lib set (pre ++ bad :: post) =
        .ret { lookupResults := new,
               stdout := Output.emailsContent :: (lines ++ [Output.decodeError err]) } := by
  have hpre' : ∀ m ∈ pre, lib.DecodeString (encodedBody m) = .ok (decodedText lib m) := by
    intro m hm
    obtain ⟨t, ht⟩ := hpre m hm
    rw [decodedText_of_ok lib m t ht, ht]
  obtain ⟨new, lines, hrun, _, hlines⟩ :=
    forContents_ok lib set (decodedText lib) pre hok hpre'
      { lookupResults := [], stdout := [.emailsContent] }
  refine ⟨new, lines, hlines, ?_⟩
  intro post
  unfold encodedBody at hbad
  simp only [mainFrom, forContents_append, hrun, forContents, contentStep, hbad]
  simp

theorem mainFrom_lookupUsed (lib : Lib ε) (set : LookupSet) (allContent : List Message) :
    ∀ r ∈ (mainFrom lib set allContent).state.lookupResults, r.LookupUsed = none := by
  have h := forContents_lookupUsed lib set allContent
    { lookupResults := [], stdout := [.emailsContent] } (by simp)
  unfold mainFrom
  cases hs : forContents lib set allContent { lookupResults := [], stdout := [.emailsContent] } with
  | next st' => rw [hs] at h; simpa [Flow.state, printResults] using h
  | ret st' => rw [hs] at h; exact h
  | panic st' => rw [hs] at h; exact h

theorem getMessageBody_htmlMessage (id body : String) :
    getMessageBody (htmlMessage id body).Payload.Parts = body := by
  simp [htmlMessage, leaf, MessagePart.Parts, getMessageBody]

theorem encodedBody_htmlMessage (id body : String) :
    encodedBody (htmlMessage id body) = ReplaceAll (ReplaceAll body "-" "+") "_" "/" := by
  simp only [encodedBody, getMessageBody_htmlMessage]

theorem decode_htmlMessage (rest : String → Option Regexp) (id body : String)
    (r : Except CorruptInputError String)
    (h : goLibStrict.DecodeString (ReplaceAll (ReplaceAll body "-" "+") "_" "/") = r) :
    (goLib rest).DecodeString (encodedBody (htmlMessage id body)) = r := by
  rw [encodedBody_htmlMessage]
  exact h

theorem contentStep_of_decode_ok (lib : Lib ε) (set : LookupSet) (st : State ε) (m : Message)
    (t : String) (h : lib.DecodeString (encodedBody m) = .ok t) :
    contentStep lib set st m = forLookups lib t set.Lookups st := by
  unfold encodedBody at h
  simp only [contentStep, h]

theorem forContents_cons_next (lib : Lib ε) (set : LookupSet) (st st' : State ε) (m : Message)
    (ms : List Message) (h : contentStep lib set st m = .next st') :
    forContents lib set (m :: ms) st = forContents lib set ms st' := by
  simp only [forContents, h]

theorem forContents_nil (lib : Lib ε) (set : LookupSet) (st : State ε) :
    forContents lib set [] st = .next st := rfl

theorem mainFrom_of_next (lib : Lib ε) (set : LookupSet) (cs : List Message) (st : State ε)
    (h : forContents lib set cs { lookupResults := [], stdout := [.emailsContent] } = .next st) :
    mainFrom lib set cs = .next (printResults st) := by
  simp only [mainFrom, h]

theorem RuleOK_twoRules (rest : String → Option Regexp) :
    ∀ r ∈ twoRules.Lookups, RuleOK (goLib rest) r := by
  intro r hr
  simp only [twoRules, allLookups, List.cons_append, List.nil_append, List.mem_cons,
    List.mem_singleton, List.not_mem_nil, or_false] at hr
  rcases hr with rfl | rfl
  · exact RuleOK_goLib rest _ (by decide) (by decide)
  · exact RuleOK_goLib rest _ (by decide) (by decide)

end Run

set_option maxRecDepth 100000

theorem decode_wellingtonBody :
    goLibStrict.DecodeString (ReplaceAll (ReplaceAll wellingtonBody "-" "+") "_" "/") =
      .ok ("We've found <b> 12 </b> new jobs for you: " ++
        "<b>software in Wellington</b> posted a short while ago") := by
  decide

theorem decode_aucklandBody :
    goLibStrict.DecodeString (ReplaceAll (ReplaceAll aucklandBody "-" "+") "_" "/") =
      .ok ("We've found <b>3</b> new jobs: " ++
        "<b>software in Auckland</b> posted a short while ago") := by
  decide

theorem decode_malformedBody :
    goLibStrict.DecodeString (ReplaceAll (ReplaceAll malformedBody "-" "+") "_" "/") =
      .error .corrupt := by
  decide

theorem forLookups_wellington_strict :
    forLookups goLibStrict ("We've found <b> 12 </b> new jobs for you: " ++
        "<b>software in Wellington</b> posted a short while ago") allLookups.Lookups
        ⟨[], [.emailsContent]⟩ =
      .next ⟨[{ Data := "12", Label := "Wellington", LookupUsed := none }],
             [.emailsContent]⟩ := by
  decide

theorem forLookups_wellington (rest : String → Option Regexp) :
    forLookups (goLib rest) ("We've found <b> 12 </b> new jobs for you: " ++
        "<b>software in Wellington</b> posted a short while ago") allLookups.Lookups
        ⟨[], [.emailsContent]⟩ =
      .next ⟨[{ Data := "12", Label := "Wellington", LookupUsed := none }],
             [.emailsContent]⟩ :=
  (forLookups_goLib rest (fun _ => none) _ _ (by decide) _).trans forLookups_wellington_strict

theorem forLookups_empty_strict :
    forLookups goLibStrict "" allLookups.Lookups ⟨[], [.emailsContent]⟩ =
      .next ⟨[], [.emailsContent, .noDataOrLabel none none]⟩ := by
  decide

theorem forLookups_empty (rest : String → Option Regexp) :
    forLookups (goLib rest) "" allLookups.Lookups ⟨[], [.emailsContent]⟩ =
      .next ⟨[], [.emailsContent, .noDataOrLabel none none]⟩ :=
  (forLookups_goLib rest (fun _ => none) _ _ (by decide) _).trans forLookups_empty_strict


/-! ## The rule of the specification's example on texts of a given shape -/

theorem parse_foundData : parse foundRule.DataRegex = some (foundDataRe, 1) := by decide

theorem parse_foundLabel : parse foundRule.LabelRegex = some (foundLabelRe, 1) := by decide

section

variable {α : Type}

theorem matchK_lits_cons (c : Char) (p : List Char) (r : Re) (x : Char) (xs : List Char)
    (caps : Caps) (k : List Char → Caps → Option α) :
    (Re.lits (c :: p) r).matchK (x :: xs) caps k =
      if x = c then (Re.lits p r).matchK xs caps k else none := by
  simp [Re.lits, Re.matchK, matchChar]

theorem matchK_lits_nil_input (c : Char) (p : List Char) (r : Re)
    (caps : Caps) (k : List Char → Caps → Option α) :
    (Re.lits (c :: p) r).matchK [] caps k = none := by
  simp [Re.lits, Re.matchK, matchChar]

theorem matchK_lits_append (p : List Char) (r : Re) (s : List Char)
    (caps : Caps) (k : List Char → Caps → Option α) :
    (Re.lits p r).matchK (p ++ s) caps k = r.matchK s caps k := by
  induction p with
  | nil => rfl
  | cons c p ih => simp [matchK_lits_cons, ih]

/-! ### Greedy iteration of a character class -/

theorem starK_nil (step : List Char → Caps → (List Char → Caps → Option α) → Option α)
    (p : Char → Bool) (hstep : ∀ s caps k, step s caps k = matchChar p s caps k)
    (fuel : Nat) (caps : Caps) (k : List Char → Caps → Option α) :
    starK step fuel [] caps k = k [] caps := by
  cases fuel with
  | zero => rfl
  | succ n => simp [starK, hstep, matchChar]

theorem starK_stop (step : List Char → Caps → (List Char → Caps → Option α) → Option α)
    (p : Char → Bool) (hstep : ∀ s caps k, step s caps k = matchChar p s caps k)
    (fuel : Nat) (x : Char) (xs : List Char) (caps : Caps)
    (k : List Char → Caps → Option α) (hx : p x = false) :
    starK step fuel (x :: xs) caps k = k (x :: xs) caps := by
  cases fuel with
  | zero => rfl
  | succ n => simp [starK, hstep, matchChar, hx]

theorem starK_cons (step : List Char → Caps → (List Char → Caps → Option α) → Option α)
    (p : Char → Bool) (hstep : ∀ s caps k, step s caps k = matchChar p s caps k)
    (fuel : Nat) (x : Char) (xs : List Char) (caps : Caps)
    (k : List Char → Caps → Option α) (hx : p x = true) :
    starK step (fuel + 1) (x :: xs) caps k =
      (starK step fuel xs caps k).or (k (x :: xs) caps) := by
  cases h : starK step fuel xs caps k <;> simp [starK, hstep, matchChar, hx, h]

/-! ### The leftmost search -/

theorem take_length_sub (a rest : List Char) :
    (a ++ rest).take ((a ++ rest).length - rest.length) = a := by
  simp

end

theorem dataFragment_data : dataFragment.data = dataChars := by decide

theorem labelFragment_data : labelFragment.data = labelChars := by decide

section

variable {α : Type}

theorem matchK_cat (a b : Re) (s : List Char) (caps : Caps) (k : List Char → Caps → Option α) :
    (Re.cat a b).matchK s caps k = a.matchK s caps (fun s' caps' => b.matchK s' caps' k) := rfl

theorem matchK_empty (s : List Char) (caps : Caps) (k : List Char → Caps → Option α) :
    Re.empty.matchK s caps k = k s caps := rfl

theorem matchK_group (i : Nat) (r : Re) (s : List Char) (caps : Caps)
    (k : List Char → Caps → Option α) :
    (Re.group i r).matchK s caps k =
      r.matchK s caps (fun s' caps' => k s' ((i, s.take (s.length - s'.length)) :: caps')) :=
  rfl

theorem matchK_plus (r : Re) (s : List Char) (caps : Caps) (k : List Char → Caps → Option α) :
    (Re.plus r).matchK s caps k =
      r.matchK s caps (fun s' caps' =>
        starK (fun s'' caps'' k' => r.matchK s'' caps'' k') s'.length s' caps' k) := rfl

theorem matchK_star (r : Re) (s : List Char) (caps : Caps) (k : List Char → Caps → Option α) :
    (Re.star r).matchK s caps k =
      starK (fun s' caps' k' => r.matchK s' caps' k') s.length s caps k := rfl

theorem matchK_anyNotNL_cons (x : Char) (xs : List Char) (caps : Caps)
    (k : List Char → Caps → Option α) (hx : x ≠ '\n') :
    Re.anyNotNL.matchK (x :: xs) caps k = k xs caps := by
  simp [Re.matchK, matchChar, hx]

end

theorem search_of_match (r : Re) (s : List Char) (res : List Char × Caps)
    (h : r.matchK s [] (fun s' caps => some (s.take (s.length - s'.length), caps)) = some res) :
    r.search s = some res := by
  cases s with
  | nil => simpa [Re.search] using h
  | cons c cs => simp only [Re.search, h]

section

variable {α : Type}

theorem starK_space_cons (fuel : Nat) (x : Char) (xs : List Char) (caps : Caps)
    (k : List Char → Caps → Option α) (hx : isSpace x = true) :
    starK (fun s' caps' k' => (Re.space false).matchK s' caps' k') (fuel + 1) (x :: xs) caps k =
      (starK (fun s' caps' k' => (Re.space false).matchK s' caps' k') fuel xs caps k).or
        (k (x :: xs) caps) :=
  starK_cons _ (fun y => isSpace y != false) (fun _ _ _ => rfl) _ _ _ _ _ (by simp [hx])

theorem starK_space_stop (fuel : Nat) (x : Char) (xs : List Char) (caps : Caps)
    (k : List Char → Caps → Option α) (hx : isSpace x = false) :
    starK (fun s' caps' k' => (Re.space false).matchK s' caps' k') fuel (x :: xs) caps k =
      k (x :: xs) caps :=
  starK_stop _ (fun y => isSpace y != false) (fun _ _ _ => rfl) _ _ _ _ _ (by simp [hx])

theorem starK_digit_stop (fuel : Nat) (x : Char) (xs : List Char) (caps : Caps)
    (k : List Char → Caps → Option α) (hx : isDigit x = false) :
    starK (fun s' caps' k' => (Re.digit false).matchK s' caps' k') fuel (x :: xs) caps k =
      k (x :: xs) caps :=
  starK_stop _ (fun y => isDigit y != false) (fun _ _ _ => rfl) _ _ _ _ _ (by simp [hx])

theorem matchK_digit_cons (x : Char) (xs : List Char) (caps : Caps)
    (k : List Char → Caps → Option α) (hx : isDigit x = true) :
    (Re.digit false).matchK (x :: xs) caps k = k xs caps := by
  simp [Re.matchK, matchChar, hx]

end

/-- The data pattern matches the data fragment at the head of a text. -/
theorem data_matchK (rest : List Char) :
    foundDataRe.matchK (dataChars ++ rest) []
        (fun s' caps =>
          some ((dataChars ++ rest).take ((dataChars ++ rest).length - s'.length), caps)) =
      some (dataChars, [(1, ['7'])]) := by
  show (Re.lits ['f', 'o', 'u', 'n', 'd', ' ', '<', 'b', '>'] _).matchK
      (['f', 'o', 'u', 'n', 'd', ' ', '<', 'b', '>'] ++
        (' ' :: '7' :: ' ' :: (['<', '/', 'b', '>'] ++ rest))) [] _ = _
  rw [matchK_lits_append, matchK_cat, matchK_star, List.length_cons,
    starK_space_cons _ _ _ _ _ (by decide), starK_space_stop _ _ _ _ _ (by decide),
    matchK_cat, matchK_group, matchK_cat, matchK_plus, matchK_digit_cons _ _ _ _ (by decide),
    starK_digit_stop _ _ _ _ _ (by decide), matchK_empty, matchK_cat, matchK_star,
    List.length_cons, starK_space_cons _ _ _ _ _ (by decide)]
  rw [show (['<', '/', 'b', '>'] ++ rest) = '<' :: (['/', 'b', '>'] ++ rest) from rfl,
    starK_space_stop _ _ _ _ _ (by decide)]
  rw [show ('<' :: (['/', 'b', '>'] ++ rest)) = ['<', '/', 'b', '>'] ++ rest from rfl,
    matchK_lits_append, matchK_empty]
  have h1 := take_length_sub dataChars rest
  have h2 : ('7' :: ' ' :: (['<', '/', 'b', '>'] ++ rest)).length -
      ((['<', '/', 'b', '>'] ++ rest).length + 1) = 1 := by
    simp only [List.length_cons]
    omega
  simp only [Option.or_some]
  rw [h1, h2]
  rfl

theorem MustCompile_foundData (rest : String → Option Regexp) :
    (goLib rest).MustCompile foundRule.DataRegex = some (Regexp.ofRe foundDataRe 1) :=
  MustCompile_of_parse rest _ _ parse_foundData

theorem MustCompile_foundLabel (rest : String → Option Regexp) :
    (goLib rest).MustCompile foundRule.LabelRegex = some (Regexp.ofRe foundLabelRe 1) :=
  MustCompile_of_parse rest _ _ parse_foundLabel

theorem fragments_data (pre mid post : String) :
    (pre ++ dataFragment ++ mid ++ labelFragment ++ post).data =
      pre.data ++ (dataChars ++ (mid.data ++ (labelChars ++ post.data))) := by
  simp only [String.data_append, dataFragment_data, labelFragment_data, List.append_assoc]

/-! ### Searching past positions without a match -/

theorem search_cons_of_matchAt_none (r : Re) (c : Char) (cs : List Char)
    (h : r.matchAt (c :: cs) = none) : r.search (c :: cs) = r.search cs := by
  unfold Re.matchAt at h
  simp only [Re.search, h]

theorem search_of_matchAt (r : Re) (s : List Char) (res : List Char × Caps)
    (h : r.matchAt s = some res) : r.search s = some res :=
  search_of_match r s res h

/-- The search passes over a prefix at no position of which the pattern
matches. -/
theorem search_skip_of_no_match (r : Re) (pre s : List Char)
    (h : ∀ i, i < pre.length → r.matchAt ((pre ++ s).drop i) = none) :
    r.search (pre ++ s) = r.search s := by
  induction pre with
  | nil => rfl
  | cons c cs ih =>
    have h0 := h 0 (by simp)
    rw [List.cons_append, search_cons_of_matchAt_none r c (cs ++ s) h0]
    apply ih
    intro i hi
    have := h (i + 1) (by simpa using hi)
    simpa using this

/-! ### Literals that are not a prefix of the text -/

theorem matchK_lits_not_prefix {α : Type} (p : List Char) (r : Re) (s : List Char)
    (caps : Caps) (k : List Char → Caps → Option α) (h : p.isPrefixOf s = false) :
    (Re.lits p r).matchK s caps k = none := by
  induction p generalizing s with
  | nil => simp [List.isPrefixOf] at h
  | cons c p ih =>
    cases s with
    | nil => exact matchK_lits_nil_input c p r caps k
    | cons x xs =>
      rw [matchK_lits_cons]
      by_cases hx : x = c
      · subst hx
        simp only [List.isPrefixOf, beq_self_eq_true, Bool.true_and] at h
        simp [ih xs h]
      · simp [hx]

/-- The literal `c :: q`, with `c` not a newline, does not start where the first
line of a text ends. -/
theorem isPrefixOf_drop_line (c : Char) (q post : List Char) (hc : c ≠ '\n') :
    (c :: q).isPrefixOf (post.drop (post.takeWhile (fun y => decide (y ≠ '\n'))).length) =
      false := by
  induction post with
  | nil => rfl
  | cons y ys ih =>
    by_cases hy : y = '\n'
    · subst hy
      have : (c == '\n') = false := by simpa using hc
      simp [List.takeWhile, List.isPrefixOf, this]
    · simpa [List.takeWhile, hy] using ih

/-! ### Greedy `.+` before a literal -/

theorem starK_any_nil {α : Type} (fuel : Nat) (caps : Caps)
    (k : List Char → Caps → Option α) :
    starK (fun s' caps' k' => Re.anyNotNL.matchK s' caps' k') fuel [] caps k = k [] caps :=
  starK_nil _ (fun y => decide (y ≠ '\n')) (fun _ _ _ => rfl) _ _ _

theorem starK_any_stop {α : Type} (fuel : Nat) (xs : List Char) (caps : Caps)
    (k : List Char → Caps → Option α) :
    starK (fun s' caps' k' => Re.anyNotNL.matchK s' caps' k') fuel ('\n' :: xs) caps k =
      k ('\n' :: xs) caps :=
  starK_stop _ (fun y => decide (y ≠ '\n')) (fun _ _ _ => rfl) _ _ _ _ _ (by simp)

theorem starK_any_cons {α : Type} (fuel : Nat) (x : Char) (xs : List Char) (caps : Caps)
    (k : List Char → Caps → Option α) (hx : x ≠ '\n') :
    starK (fun s' caps' k' => Re.anyNotNL.matchK s' caps' k') (fuel + 1) (x :: xs) caps k =
      (starK (fun s' caps' k' => Re.anyNotNL.matchK s' caps' k') fuel xs caps k).or
        (k (x :: xs) caps) :=
  starK_cons _ (fun y => decide (y ≠ '\n')) (fun _ _ _ => rfl) _ _ _ _ _ (by simp [hx])

/-- The iteration of `.` fails when the continuation fails at every position of
the first line of the text. -/
theorem starK_any_none {α : Type} (K : List Char → Caps → Option α) (u : List Char)
    (hK : ∀ j, j ≤ (u.takeWhile (fun y => decide (y ≠ '\n'))).length →
      ∀ caps, K (u.drop j) caps = none)
    (fuel : Nat) (caps : Caps) :
    starK (fun s' caps' k' => Re.anyNotNL.matchK s' caps' k') fuel u caps K = none := by
  induction u generalizing fuel with
  | nil =>
    rw [starK_any_nil]
    exact hK 0 (by simp) caps
  | cons y ys ih =>
    have h0 : K (y :: ys) caps = none := hK 0 (by simp) caps
    cases fuel with
    | zero => exact h0
    | succ n =>
      by_cases hy : y = '\n'
      · subst hy
        rw [starK_any_stop]
        exact h0
      · rw [starK_any_cons _ _ _ _ _ hy, h0]
        have hys : ∀ j, j ≤ (ys.takeWhile (fun y => decide (y ≠ '\n'))).length →
            ∀ caps, K (ys.drop j) caps = none := by
          intro j hj caps'
          have := hK (j + 1) (by simpa [List.takeWhile, hy] using hj) caps'
          simpa using this
        simp [ih hys n]

/-- The iteration of `.` over `a ++ c :: w`, where `a` has no newline: when the
continuation fails at every position of the first line of `w` and succeeds at
`c :: w`, that success is the result. -/
theorem starK_any_upto {α : Type} (K : List Char → Caps → Option α) (a : List Char)
    (c : Char) (w : List Char) (caps : Caps) (res : α)
    (ha : ∀ y ∈ a, y ≠ '\n')
    (hK : ∀ j, j ≤ (w.takeWhile (fun y => decide (y ≠ '\n'))).length →
      ∀ caps, K (w.drop j) caps = none)
    (hres : K (c :: w) caps = some res) :
    starK (fun s' caps' k' => Re.anyNotNL.matchK s' caps' k') (a ++ c :: w).length
        (a ++ c :: w) caps K = some res := by
  induction a with
  | nil =>
    by_cases hc : c = '\n'
    · subst hc
      rw [List.nil_append, starK_any_stop]
      exact hres
    · rw [List.nil_append, List.length_cons, starK_any_cons _ _ _ _ _ hc,
        starK_any_none K w hK, hres]
      rfl
  | cons y ys ih =>
    have hy : y ≠ '\n' := ha y (by simp)
    rw [List.cons_append, List.length_cons, starK_any_cons _ _ _ _ _ hy,
      ih (fun z hz => ha z (by simp [hz]))]
    rfl

/-- Greedy `(.+)` followed by a literal `c :: q`: on a text `x :: a ++ c :: w`
in which `x :: a` has no newline and the literal does not start at any position
of the first line of `w`, group `i` captures exactly `x :: a`, provided the
rest of the pattern matches at `c :: w`. -/
theorem matchK_group_anyPlus_lits_upto {α : Type} (i : Nat) (c : Char) (q : List Char)
    (r : Re) (x : Char) (a w : List Char) (caps : Caps) (k : List Char → Caps → Option α)
    (res : α) (hx : x ≠ '\n') (ha : ∀ y ∈ a, y ≠ '\n')
    (hw : ∀ j, j ≤ (w.takeWhile (fun y => decide (y ≠ '\n'))).length →
      (c :: q).isPrefixOf (w.drop j) = false)
    (hres : (Re.lits (c :: q) r).matchK (c :: w) ((i, x :: a) :: caps) k = some res) :
    (Re.cat (.group i (.cat (.plus .anyNotNL) .empty)) (Re.lits (c :: q) r)).matchK
        (x :: (a ++ c :: w)) caps k = some res := by
  rw [matchK_cat, matchK_group, matchK_cat, matchK_plus, matchK_anyNotNL_cons _ _ _ _ hx]
  simp only [matchK_empty]
  apply starK_any_upto _ a c w caps res ha
  · intro j hj caps'
    exact matchK_lits_not_prefix _ _ _ _ _ (hw j hj)
  · have ht : (x :: (a ++ c :: w)).take
        ((x :: (a ++ c :: w)).length - (c :: w).length) = x :: a := by
      have := take_length_sub (x :: a) (c :: w)
      simpa using this
    rw [ht]
    exact hres

/-- The literal `c :: q` does not start inside a text `t` without `c`, and so
not at any position of the first line of `t ++ post` when it does not start in
the first line of `post`. -/
theorem isPrefixOf_drop_append (c : Char) (q t post : List Char) (hc : c ≠ '\n')
    (ht : ∀ y ∈ t, y ≠ '\n' ∧ y ≠ c)
    (hpost : ∀ i, i < (post.takeWhile (fun y => decide (y ≠ '\n'))).length →
      (c :: q).isPrefixOf (post.drop i) = false) :
    ∀ j, j ≤ ((t ++ post).takeWhile (fun y => decide (y ≠ '\n'))).length →
      (c :: q).isPrefixOf ((t ++ post).drop j) = false := by
  induction t with
  | nil =>
    intro j hj
    rcases Nat.lt_or_eq_of_le hj with h | h
    · exact hpost j h
    · rw [h]
      exact isPrefixOf_drop_line c q post hc
  | cons y ys ih =>
    have hy := ht y (by simp)
    intro j hj
    cases j with
    | zero =>
      have : (c == y) = false := by simpa using fun e : c = y => hy.2 e.symm
      simp [List.isPrefixOf, this]
    | succ j' =>
      have hj' : j' ≤ ((ys ++ post).takeWhile (fun y => decide (y ≠ '\n'))).length := by
        simpa [List.takeWhile, hy.1] using hj
      simpa using ih (fun z hz => ht z (by simp [hz])) j' hj'

theorem posted_data : ("</b> posted" : String).data = postedChars := by decide

/-- The label pattern at the label fragment: group 1 is `Acme` when
`</b> posted` does not start again in the first line of `post`. -/
theorem label_matchAt (post : List Char)
    (hline : ∀ i, i < (post.takeWhile (fun y => decide (y ≠ '\n'))).length →
      postedChars.isPrefixOf (post.drop i) = false) :
    foundLabelRe.matchAt (labelChars ++ post) =
      some (['<', 'b', '>', 's', 'o', 'f', 't', 'w', 'a', 'r', 'e', ' ', 'i', 'n', ' ', 'A',
        'c', 'm', 'e', '<', '/', 'b', '>', ' ', 'p', 'o', 's', 't', 'e', 'd'],
        [(1, ['A', 'c', 'm', 'e'])]) := by
  have hT : ∀ y ∈ ['/', 'b', '>', ' ', 'p', 'o', 's', 't', 'e', 'd', ' ', 'a', ' ', 's', 'h',
      'o', 'r', 't', ' ', 'w', 'h', 'i', 'l', 'e'], y ≠ '\n' ∧ y ≠ '<' := by decide
  have hw := isPrefixOf_drop_append '<' ['/', 'b', '>', ' ', 'p', 'o', 's', 't', 'e', 'd']
    ['/', 'b', '>', ' ', 'p', 'o', 's', 't', 'e', 'd', ' ', 'a', ' ', 's', 'h',
      'o', 'r', 't', ' ', 'w', 'h', 'i', 'l', 'e'] post (by decide) hT hline
  unfold Re.matchAt
  show (Re.lits ['<', 'b', '>', 's', 'o', 'f', 't', 'w', 'a', 'r', 'e', ' ', 'i', 'n', ' ']
      _).matchK (['<', 'b', '>', 's', 'o', 'f', 't', 'w', 'a', 'r', 'e', ' ', 'i', 'n', ' '] ++
        ('A' :: (['c', 'm', 'e'] ++ '<' :: (['/', 'b', '>', ' ', 'p', 'o', 's', 't', 'e', 'd',
          ' ', 'a', ' ', 's', 'h', 'o', 'r', 't', ' ', 'w', 'h', 'i', 'l', 'e'] ++ post)))) [] _ = _
  rw [matchK_lits_append]
  apply matchK_group_anyPlus_lits_upto 1 '<' _ _ 'A' ['c', 'm', 'e'] _ [] _ _ (by decide)
    (by decide) hw
  show (Re.lits ['<', '/', 'b', '>', ' ', 'p', 'o', 's', 't', 'e', 'd'] Re.empty).matchK
      (['<', '/', 'b', '>', ' ', 'p', 'o', 's', 't', 'e', 'd'] ++
        ([' ', 'a', ' ', 's', 'h', 'o', 'r', 't', ' ', 'w', 'h', 'i', 'l', 'e'] ++ post)) _ _ = _
  rw [matchK_lits_append, matchK_empty]
  have := take_length_sub ['<', 'b', '>', 's', 'o', 'f', 't', 'w', 'a', 'r', 'e', ' ', 'i', 'n',
    ' ', 'A', 'c', 'm', 'e', '<', '/', 'b', '>', ' ', 'p', 'o', 's', 't', 'e', 'd']
    ([' ', 'a', ' ', 's', 'h', 'o', 'r', 't', ' ', 'w', 'h', 'i', 'l', 'e'] ++ post)
  exact congrArg (fun w => some (w, [(1, ['A', 'c', 'm', 'e'])])) this

theorem data_matchAt (rest : List Char) :
    foundDataRe.matchAt (dataChars ++ rest) = some (dataChars, [(1, ['7'])]) :=
  data_matchK rest

theorem matchesAt_foundData (s : List Char) (h : matchesAt foundRule.DataRegex s = false) :
    foundDataRe.matchAt s = none := by
  simpa [matchesAt, parse_foundData] using h

theorem matchesAt_foundLabel (s : List Char) (h : matchesAt foundRule.LabelRegex s = false) :
    foundLabelRe.matchAt s = none := by
  simpa [matchesAt, parse_foundLabel] using h

theorem fragments_data_label (pre mid post : String) :
    (pre ++ dataFragment ++ mid ++ labelFragment ++ post).data =
      (pre ++ dataFragment ++ mid).data ++ (labelChars ++ post.data) := by
  simp only [String.data_append, labelFragment_data, List.append_assoc]

/-- The rule of the specification's example on a text that has the two
fragments in this order, no match of either pattern that starts before its
fragment, and no second `</b> posted` on the line of the label fragment. -/
theorem forLookups_foundRule (rest : String → Option Regexp) (pre mid post : String)
    (hdata : ∀ i, i < pre.data.length →
      matchesAt foundRule.DataRegex
        ((pre ++ dataFragment ++ mid ++ labelFragment ++ post).data.drop i) = false)
    (hlabel : ∀ i, i < (pre ++ dataFragment ++ mid).data.length →
      matchesAt foundRule.LabelRegex
        ((pre ++ dataFragment ++ mid ++ labelFragment ++ post).data.drop i) = false)
    (hline : ∀ i, i < (post.data.takeWhile (fun c => decide (c ≠ '\n'))).length →
      ("</b> posted" : String).data.isPrefixOf (post.data.drop i) = false) :
    forLookups (goLib rest) (pre ++ dataFragment ++ mid ++ labelFragment ++ post) [foundRule]
        ⟨[], []⟩ =
      .next ⟨[{ Data := "7", Label := "Acme", LookupUsed := none }], []⟩ := by
  have hd : (Regexp.ofRe foundDataRe 1).FindStringSubmatch
      (pre ++ dataFragment ++ mid ++ labelFragment ++ post) =
      some ["found <b> 7 </b>", "7"] := by
    have hskip := search_skip_of_no_match foundDataRe pre.data
      (dataChars ++ (mid.data ++ (labelChars ++ post.data)))
      (fun i hi => matchesAt_foundData _ (by simpa only [fragments_data] using hdata i hi))
    have hfound := search_of_matchAt _ _ _
      (data_matchAt (mid.data ++ (labelChars ++ post.data)))
    simp only [Regexp.ofRe, fragments_data, hskip, hfound, Option.map_some']
    decide
  have hl : (Regexp.ofRe foundLabelRe 1).FindStringSubmatch
      (pre ++ dataFragment ++ mid ++ labelFragment ++ post) =
      some ["<b>software in Acme</b> posted", "Acme"] := by
    have hskip := search_skip_of_no_match foundLabelRe (pre ++ dataFragment ++ mid).data
      (labelChars ++ post.data)
      (fun i hi => matchesAt_foundLabel _ (by simpa only [fragments_data_label] using hlabel i hi))
    have hfound := search_of_matchAt _ _ _
      (label_matchAt post.data (by simpa only [posted_data] using hline))
    simp only [Regexp.ofRe, fragments_data_label, hskip, hfound, Option.map_some']
    decide
  simp only [forLookups, lookupStep, MustCompile_foundData, MustCompile_foundLabel, hd, hl]
  rfl

/-! ## The claims about the body resolver and the header lookup -/

/-- C1 (fails on the code): on the part list `containerThenHtml` the first
part is a container without an HTML leaf and the second part is an HTML leaf
with body `hiBody`.  That leaf is the first, and only, HTML leaf in pre-order,
yet `getMessageBody` returns the empty string: the search does not continue
into the later sibling. -/
theorem getMessageBody_stops_at_first_container :
    htmlLeaves containerThenHtml = [hiBody] ∧ getMessageBody containerThenHtml = "" := by
  constructor <;> simp [containerThenHtml, multipart, leaf, htmlLeaves, getMessageBody]

/-- C2 (fails on the code): for the message `singlePartHtml`, whose root
payload is a childless `text/html` part with the non-empty body
`wellingtonBody`, the body resolved by the pipeline is the empty string, in
`GmailClient.Email` (the field `Body`) and in `main` (the string handed to the
decoder), not the root payload's body data; `main` finds no result in it. -/
theorem root_html_body_not_resolved :
    singlePartHtml.Payload.Parts = [] ∧
    singlePartHtml.Payload.MimeType = "text/html" ∧
    singlePartHtml.Payload.Body.Data = wellingtonBody ∧
    wellingtonBody ≠ "" ∧
    (clientOf singlePartHtml).Email "m-single" =
      .ok { Id := "m-single", Body := "", Sender := "jobs@example.org", Subject := "New jobs" } ∧
    encodedBody singlePartHtml = "" ∧
    ∀ rest, main (goLib rest) [singlePartHtml] =
      .next ⟨[], [.emailsContent, .noDataOrLabel none none]⟩ := by
  have hb : getMessageBody singlePartHtml.Payload.Parts = "" := by
    simp [singlePartHtml, MessagePart.Parts, getMessageBody]
  have he : encodedBody singlePartHtml = "" := by
    simp only [encodedBody, hb]
    decide
  refine ⟨rfl, rfl, rfl, by decide, ?_, he, ?_⟩
  · simp [GmailClient.Email, clientOf, singlePartHtml, MessagePart.Parts, MessagePart.Headers,
      getMessageBody, getMessageSender, getMessageSubject, getMessageHeader]
  · intro rest
    have hd0 : goLibStrict.DecodeString "" = .ok "" := by decide
    have hdec : (goLib rest).DecodeString (encodedBody singlePartHtml) = .ok "" := by
      rw [he]
      exact hd0
    have hstep := (contentStep_of_decode_ok (goLib rest) allLookups ⟨[], [.emailsContent]⟩ _ _
      hdec).trans (forLookups_empty rest)
    have hall := (forContents_cons_next (goLib rest) allLookups _ _ _ [] hstep).trans
      (forContents_nil (goLib rest) allLookups _)
    exact mainFrom_of_next (goLib rest) allLookups _ _ hall

/-- C3: a part list without a childless `text/html` part anywhere in its trees
(no HTML leaf in pre-order) resolves to the empty string. -/
theorem getMessageBody_no_html_leaf (parts : List MessagePart)
    (h : htmlLeaves parts = []) : getMessageBody parts = "" :=
  getMessageBody_eq_empty_of_no_leaf parts h

/-- Witness for C3: the empty list, and a list of containers and non-HTML
leaves. -/
theorem getMessageBody_no_html_leaf_witness :
    (htmlLeaves [] = [] ∧ getMessageBody [] = "") ∧
    (htmlLeaves noHtmlParts = [] ∧ getMessageBody noHtmlParts = "") :=
  have h0 : htmlLeaves [] = [] := by simp [htmlLeaves]
  have h1 : htmlLeaves noHtmlParts = [] := by
    simp [noHtmlParts, multipart, leaf, htmlLeaves]
  ⟨⟨h0, getMessageBody_no_html_leaf [] h0⟩, ⟨h1, getMessageBody_no_html_leaf noHtmlParts h1⟩⟩

/-- C9: `getMessageHeader` returns the value of the first header whose name
equals the wanted name (case-sensitively, by string equality), and the empty
string when no header has that name; `getMessageSender` and
`getMessageSubject` are this lookup for `From` and `Subject`. -/
theorem getMessageHeader_first_match (headers : List MessagePartHeader) (wanted : String) :
    (∀ pre h post, headers = pre ++ h :: post → (∀ x ∈ pre, x.Name ≠ wanted) →
        h.Name = wanted →
        getMessageHeader headers wanted = h.Value ∧
        (wanted = "From" → getMessageSender headers = h.Value) ∧
        (wanted = "Subject" → getMessageSubject headers = h.Value)) ∧
    ((∀ x ∈ headers, x.Name ≠ wanted) →
        getMessageHeader headers wanted = "" ∧
        (wanted = "From" → getMessageSender headers = "") ∧
        (wanted = "Subject" → getMessageSubject headers = "")) := by
  constructor
  · intro pre h post hs hpre hh
    subst hs
    have key := getMessageHeader_append pre post h wanted hpre hh
    refine ⟨key, ?_, ?_⟩
    · intro hw; subst hw; exact key
    · intro hw; subst hw; exact key
  · intro hno
    have key := getMessageHeader_absent headers wanted hno
    refine ⟨key, ?_, ?_⟩
    · intro hw; subst hw; exact key
    · intro hw; subst hw; exact key

/-- Witness for C9: among `To`, `From`, `From` the first `From` wins, a
lower-case `from` is not found, and there is no `Subject`. -/
theorem getMessageHeader_first_match_witness :
    getMessageSender (htmlMessage "m1" hiBody).Payload.Headers = "jobs@example.org" ∧
    getMessageHeader (htmlMessage "m1" hiBody).Payload.Headers "from" = "" ∧
    getMessageSubject (htmlMessage "m1" hiBody).Payload.Headers = "" :=
  ⟨((getMessageHeader_first_match (htmlMessage "m1" hiBody).Payload.Headers "From").1
      [⟨"To", "me@example.org"⟩] ⟨"From", "jobs@example.org"⟩ [⟨"From", "other@example.org"⟩]
      rfl (by decide) rfl).2.1 rfl,
   ((getMessageHeader_first_match (htmlMessage "m1" hiBody).Payload.Headers "from").2
      (by decide)).1,
   ((getMessageHeader_first_match (htmlMessage "m1" hiBody).Payload.Headers "Subject").2
      (by decide)).2.2 rfl⟩

/-! ## The claims about decoding, extraction and the run -/

/-- C4: for every byte string `x`, the padded URL-safe base64 encoding of `x`,
with every `-` replaced by `+` and every `_` by `/`, decodes with the standard
decoder, without error, to exactly `x`; the empty string decodes to the empty
string without error. -/
theorem decode_substitute_encode (x : List Nat) (hx : ∀ b ∈ x, b < 256) :
    StdEncoding.DecodeString
        (ReplaceAll (ReplaceAll (URLEncoding.EncodeToString x) "-" "+") "_" "/") = .ok x ∧
    StdEncoding.DecodeString (ReplaceAll (ReplaceAll "" "-" "+") "_" "/") = .ok [] ∧
    ∀ rest, (goLib rest).DecodeString (ReplaceAll (ReplaceAll "" "-" "+") "_" "/") = .ok "" := by
  have h0 : goLibStrict.DecodeString (ReplaceAll (ReplaceAll "" "-" "+") "_" "/") = .ok "" := by
    decide
  refine ⟨?_, by decide, fun _ => h0⟩
  have h1 : ("-" : String) = String.mk ['-'] := rfl
  have h2 : ("+" : String) = String.mk ['+'] := rfl
  have h3 : ("_" : String) = String.mk ['_'] := rfl
  have h4 : ("/" : String) = String.mk ['/'] := rfl
  rw [h1, h2, h3, h4, ReplaceAll_single, ReplaceAll_single]
  simp only [Encoding.EncodeToString, Encoding.DecodeString, Encode_substitute]
  simpa using decodeLoop_Encode x hx []

/-- Witness for C4: the bytes `fb ff be`, whose URL-safe encoding is `-_--`,
and the empty byte string. -/
theorem decode_substitute_encode_witness :
    URLEncoding.EncodeToString [251, 255, 190] = "-_--" ∧
    StdEncoding.DecodeString (ReplaceAll (ReplaceAll "-_--" "-" "+") "_" "/") =
      .ok [251, 255, 190] ∧
    StdEncoding.DecodeString
      (ReplaceAll (ReplaceAll (URLEncoding.EncodeToString []) "-" "+") "_" "/") = .ok [] :=
  ⟨by decide,
   (decode_substitute_encode [251, 255, 190] (by decide)).1,
   (decode_substitute_encode [] (by decide)).1⟩

/-- C5: for a well-formed rule, one pass of the extraction step over a decoded
text emits a result exactly when both patterns match, each searched on its own
over the whole text: then it appends exactly one result, whose `Data` is
capture group 1 of the first match of the data pattern and whose `Label` is
capture group 1 of the first match of the label pattern; when one or both
patterns do not match it appends no result, prints the diagnostic line, and
control goes on. -/
theorem lookupStep_emits_iff_both_match {ε : Type} (lib : Lib ε) (decoded : String)
    (st : State ε) (lookup : Lookup) (hok : RuleOK lib lookup) :
    ∀ d l, lib.MustCompile lookup.DataRegex = some d →
      lib.MustCompile lookup.LabelRegex = some l →
      (∀ dm lm, d.FindStringSubmatch decoded = some dm →
          l.FindStringSubmatch decoded = some lm →
          ∃ data label, dm[1]? = some data ∧ lm[1]? = some label ∧
            lookupStep lib decoded st lookup =
              .next { lookupResults := st.lookupResults ++
                        [{ Data := data, Label := label, LookupUsed := none }],
                      stdout := st.stdout }) ∧
      (d.FindStringSubmatch decoded = none ∨ l.FindStringSubmatch decoded = none →
          lookupStep lib decoded st lookup =
            .next { lookupResults := st.lookupResults,
                    stdout := st.stdout ++
                      [.noDataOrLabel (d.FindStringSubmatch decoded)
                        (l.FindStringSubmatch decoded)] }) := by
  intro d l hd hl
  obtain ⟨d', l', hd', hl', hdlen, hllen⟩ := hok
  rw [hd] at hd'
  rw [hl] at hl'
  cases hd'
  cases hl'
  constructor
  · intro dm lm hdm hlm
    have h1 := hdlen decoded dm hdm
    have h2 := hllen decoded lm hlm
    refine ⟨dm[1], lm[1], List.getElem?_eq_getElem h1, List.getElem?_eq_getElem h2, ?_⟩
    simp [lookupStep, hd, hl, hdm, hlm, List.getElem?_eq_getElem h1,
      List.getElem?_eq_getElem h2]
  · intro hnone
    rcases hnone with h | h
    · cases hlm : l.FindStringSubmatch decoded <;> simp [lookupStep, hd, hl, h, hlm]
    · cases hdm : d.FindStringSubmatch decoded <;> simp [lookupStep, hd, hl, h, hdm]

/-- Witness for C5: the rule and the text of the specification's example give
the one result `Acme: 7`; on a text with the label fragment only, nothing is
emitted and the diagnostic is printed. -/
theorem lookupStep_emits_iff_both_match_witness :
    (∀ rest, lookupStep (goLib rest) foundText ⟨[], []⟩ foundRule =
      .next ⟨[{ Data := "7", Label := "Acme", LookupUsed := none }], []⟩) ∧
    (∀ rest, lookupStep (goLib rest) labelOnlyText ⟨[], []⟩ foundRule =
      .next ⟨[], [.noDataOrLabel none (some ["<b>software in Acme</b> posted", "Acme"])]⟩) := by
  constructor
  · intro rest
    obtain ⟨data, label, h1, h2, h3⟩ :=
      (lookupStep_emits_iff_both_match (goLib rest) foundText ⟨[], []⟩ foundRule
        (RuleOK_goLib rest foundRule (by decide) (by decide))
        (Regexp.ofRe foundDataRe 1) (Regexp.ofRe foundLabelRe 1)
        (MustCompile_foundData rest) (MustCompile_foundLabel rest)).1
        ["found <b> 7 </b>", "7"] ["<b>software in Acme</b> posted", "Acme"]
        (by decide) (by decide)
    cases h1
    cases h2
    exact h3
  · intro rest
    exact (lookupStep_emits_iff_both_match (goLib rest) labelOnlyText ⟨[], []⟩ foundRule
        (RuleOK_goLib rest foundRule (by decide) (by decide))
        (Regexp.ofRe foundDataRe 1) (Regexp.ofRe foundLabelRe 1)
        (MustCompile_foundData rest) (MustCompile_foundLabel rest)).2
        (Or.inl (by decide))

set_option maxRecDepth 100000

/-- C6: when every body decodes and every rule is well formed, the run ends
normally and the accumulated results are, as `(Label, Data)` pairs, the
concatenation over the messages in their order of the per-rule results in rule
order; the result lines printed at the end are these results in the same
order. -/
theorem mainFrom_results_in_order {ε : Type} (lib : Lib ε) (set : LookupSet)
    (allContent : List Message)
    (hok : ∀ r ∈ set.Lookups, RuleOK lib r)
    (hdec : ∀ m ∈ allContent, ∃ t, lib.DecodeString (encodedBody m) = .ok t) :
    ∃ st, mainFrom lib set allContent = .next st ∧
      st.lookupResults.map LookupResult.pair =
        allContent.flatMap
          (fun m => set.Lookups.flatMap (ruleOutput lib (decodedText lib m))) ∧
      st.stdout.filterMap Output.resultPair = st.lookupResults.map LookupResult.pair :=
  mainFrom_ok lib set allContent hok hdec

/-- Witness for C6: two messages and two rules of the modelled syntax; the
first message matches both rules, the second only the first rule. -/
theorem mainFrom_results_in_order_witness :
    modelled twoRules.Lookups = true ∧
    ∀ rest, ∃ st, mainFrom (goLib rest) twoRules
        [htmlMessage "m1" wellingtonBody, htmlMessage "m2" aucklandBody] = .next st ∧
      st.lookupResults.map LookupResult.pair =
        [("Wellington", "12"), ("Wellington", "2"), ("Auckland", "3")] ∧
      st.stdout.filterMap Output.resultPair =
        [("Wellington", "12"), ("Wellington", "2"), ("Auckland", "3")] := by
  refine ⟨by decide, ?_⟩
  intro rest
  have hdec : ∀ m ∈ [htmlMessage "m1" wellingtonBody, htmlMessage "m2" aucklandBody],
      ∃ t, (goLib rest).DecodeString (encodedBody m) = .ok t := by
    intro m hm
    simp only [List.mem_cons, List.mem_singleton, List.not_mem_nil, or_false] at hm
    rcases hm with rfl | rfl
    · exact ⟨_, decode_htmlMessage rest _ _ _ decode_wellingtonBody⟩
    · exact ⟨_, decode_htmlMessage rest _ _ _ decode_aucklandBody⟩
  obtain ⟨st, h1, h2, h3⟩ := mainFrom_results_in_order (goLib rest) twoRules
    [htmlMessage "m1" wellingtonBody, htmlMessage "m2" aucklandBody] (RuleOK_twoRules rest) hdec
  have hv0 : ([htmlMessage "m1" wellingtonBody, htmlMessage "m2" aucklandBody].flatMap
      (fun m => twoRules.Lookups.flatMap (ruleOutput goLibStrict (decodedText goLibStrict m)))) =
      [("Wellington", "12"), ("Wellington", "2"), ("Auckland", "3")] := by
    simp only [List.flatMap_cons, List.flatMap_nil, decodedText, encodedBody_htmlMessage,
      List.append_nil]
    decide
  have hv : ([htmlMessage "m1" wellingtonBody, htmlMessage "m2" aucklandBody].flatMap
      (fun m => twoRules.Lookups.flatMap
        (ruleOutput (goLib rest) (decodedText (goLib rest) m)))) =
      [("Wellington", "12"), ("Wellington", "2"), ("Auckland", "3")] := by
    have hfun : (fun m => twoRules.Lookups.flatMap
          (ruleOutput (goLib rest) (decodedText (goLib rest) m))) =
        (fun m => twoRules.Lookups.flatMap
          (ruleOutput goLibStrict (decodedText goLibStrict m))) := by
      funext m
      rw [decodedText_goLib rest (fun _ => none) m]
      exact flatMap_ruleOutput_goLib rest (fun _ => none) _ twoRules.Lookups (by decide)
    rw [hfun]
    exact hv0
  rw [hv] at h2
  rw [h2] at h3
  exact ⟨st, h1, h2, h3⟩

/-- C7: when message `bad` is the first whose body fails to decode (every
message of `pre` decodes; rules well formed), the run executes `return` after
printing the decode error: the final state is the same whatever messages
`post` follow, its last output line is the decode error, and it contains no
result line. -/
theorem mainFrom_aborts_on_decode_error {ε : Type} (lib : Lib ε) (set : LookupSet)
    (pre post : List Message) (bad : Message) (err : ε)
    (hok : ∀ r ∈ set.Lookups, RuleOK lib r)
    (hpre : ∀ m ∈ pre, ∃ t, lib.DecodeString (encodedBody m) = .ok t)
    (hbad : lib.DecodeString (encodedBody bad) = .error err) :
    ∃ st, mainFrom lib set (pre ++ bad :: post) = .ret st ∧
      (∀ post', mainFrom lib set (pre ++ bad :: post') = .ret st) ∧
      st.stdout.getLast? = some (.decodeError err) ∧
      st.stdout.filterMap Output.resultPair = [] := by
  obtain ⟨new, lines, hlines, hrun⟩ := mainFrom_decode_error lib set pre bad err hok hpre hbad
  refine ⟨_, hrun post, hrun, ?_, ?_⟩
  · show ((Output.emailsContent :: lines) ++ [Output.decodeError err]).getLast? = _
    rw [List.getLast?_append]
    rfl
  · show ((Output.emailsContent :: lines) ++ [Output.decodeError err]).filterMap
      Output.resultPair = []
    simp [List.filterMap_append, hlines, Output.resultPair]

/-- Witness for C7: five messages, the third malformed; the run stops there,
whatever follows, after the results of the first two messages were
accumulated but not printed. -/
theorem mainFrom_aborts_on_decode_error_witness :
    (∀ rest, (goLib rest).DecodeString (encodedBody (htmlMessage "m3" malformedBody)) =
      .error .corrupt) ∧
    ∀ rest, ∃ st, mainFrom (goLib rest) twoRules fiveMessages = .ret st ∧
      (∀ post', mainFrom (goLib rest) twoRules
        ([htmlMessage "m1" wellingtonBody, htmlMessage "m2" aucklandBody] ++
          htmlMessage "m3" malformedBody :: post') = .ret st) ∧
      st.stdout.getLast? = some (.decodeError .corrupt) ∧
      st.stdout.filterMap Output.resultPair = [] := by
  have hbad : ∀ rest, (goLib rest).DecodeString
      (encodedBody (htmlMessage "m3" malformedBody)) = .error .corrupt :=
    fun rest => decode_htmlMessage rest _ _ _ decode_malformedBody
  refine ⟨hbad, ?_⟩
  intro rest
  have hpre : ∀ m ∈ [htmlMessage "m1" wellingtonBody, htmlMessage "m2" aucklandBody],
      ∃ t, (goLib rest).DecodeString (encodedBody m) = .ok t := by
    intro m hm
    simp only [List.mem_cons, List.mem_singleton, List.not_mem_nil, or_false] at hm
    rcases hm with rfl | rfl
    · exact ⟨_, decode_htmlMessage rest _ _ _ decode_wellingtonBody⟩
    · exact ⟨_, decode_htmlMessage rest _ _ _ decode_aucklandBody⟩
  exact mainFrom_aborts_on_decode_error (goLib rest) twoRules
    [htmlMessage "m1" wellingtonBody, htmlMessage "m2" aucklandBody]
    [htmlMessage "m4" wellingtonBody, htmlMessage "m5" aucklandBody]
    (htmlMessage "m3" malformedBody) .corrupt (RuleOK_twoRules rest) hpre (hbad rest)

/-- C8 as stated fails on three texts that contain the data fragment
`found <b> 7 </b>` followed later by the label fragment
`<b>software in Acme</b> posted a short while`.  With an earlier match of the
data pattern (`earlierMatchText`) the result has `Data = "3"`; with an earlier
match of the label pattern (`earlierLabelText`) it has `Label = "Otago"`; with
a second `</b> posted` on the line of the label fragment (`laterPostedText`)
the greedy group takes the label up to that one.  So the result is not
`Acme: 7` for every text that contains the two fragments. -/
theorem foundRule_first_match_wins :
    (∀ rest, (forLookups (goLib rest) earlierMatchText [foundRule]
        ⟨[], []⟩).state.lookupResults.map LookupResult.pair = [("Acme", "3")]) ∧
    (∀ rest, (forLookups (goLib rest) earlierLabelText [foundRule]
        ⟨[], []⟩).state.lookupResults.map LookupResult.pair = [("Otago", "7")]) ∧
    (∀ rest, (forLookups (goLib rest) laterPostedText [foundRule]
        ⟨[], []⟩).state.lookupResults.map LookupResult.pair =
          [("Acme</b> posted a short while ago, <b>more", "7")]) ∧
    ∀ rest, ¬ ∀ pre mid post : String,
      (forLookups (goLib rest) (pre ++ dataFragment ++ mid ++ labelFragment ++ post)
        [foundRule] ⟨[], []⟩).state.lookupResults.map LookupResult.pair = [("Acme", "7")] := by
  have h1 : (forLookups goLibStrict earlierMatchText [foundRule]
      ⟨[], []⟩).state.lookupResults.map LookupResult.pair = [("Acme", "3")] := by decide
  have h2 : (forLookups goLibStrict earlierLabelText [foundRule]
      ⟨[], []⟩).state.lookupResults.map LookupResult.pair = [("Otago", "7")] := by decide
  have h3 : (forLookups goLibStrict laterPostedText [foundRule]
      ⟨[], []⟩).state.lookupResults.map LookupResult.pair =
        [("Acme</b> posted a short while ago, <b>more", "7")] := by decide
  have hm : modelled [foundRule] = true := by decide
  refine ⟨?_, ?_, ?_, ?_⟩
  · intro rest
    rw [forLookups_goLib rest (fun _ => none) _ _ hm]
    exact h1
  · intro rest
    rw [forLookups_goLib rest (fun _ => none) _ _ hm]
    exact h2
  · intro rest
    rw [forLookups_goLib rest (fun _ => none) _ _ hm]
    exact h3
  · intro rest h
    have h4 := h "found <b> 3 </b>, later " " and " " ago"
    rw [forLookups_goLib rest (fun _ => none) _ _ hm] at h4
    have h5 : (forLookups goLibStrict
        ("found <b> 3 </b>, later " ++ dataFragment ++ " and " ++ labelFragment ++ " ago")
        [foundRule] ⟨[], []⟩).state.lookupResults.map LookupResult.pair ≠ [("Acme", "7")] := by
      decide
    exact h5 h4

/-- C8 (amended): for the rule of the specification's example and every text
of the form `pre ++ "found <b> 7 </b>" ++ mid ++ "<b>software in Acme</b>
posted a short while" ++ post` such that the data pattern has no match that
starts in `pre`, the label pattern has no match that starts before the label
fragment, and `</b> posted` does not start again on the line of the label
fragment (in `post` before its first newline), the extraction step emits
exactly one result, with `Label = "Acme"` and `Data = "7"`, and prints no
diagnostic.  The text around the fragments may hold tags. -/
theorem foundRule_on_fragments (rest : String → Option Regexp) (pre mid post : String)
    (hdata : ∀ i, i < pre.data.length →
      matchesAt foundRule.DataRegex
        ((pre ++ dataFragment ++ mid ++ labelFragment ++ post).data.drop i) = false)
    (hlabel : ∀ i, i < (pre ++ dataFragment ++ mid).data.length →
      matchesAt foundRule.LabelRegex
        ((pre ++ dataFragment ++ mid ++ labelFragment ++ post).data.drop i) = false)
    (hline : ∀ i, i < (post.data.takeWhile (fun c => decide (c ≠ '\n'))).length →
      ("</b> posted" : String).data.isPrefixOf (post.data.drop i) = false) :
    forLookups (goLib rest) (pre ++ dataFragment ++ mid ++ labelFragment ++ post) [foundRule]
        ⟨[], []⟩ =
      .next ⟨[{ Data := "7", Label := "Acme", LookupUsed := none }], []⟩ :=
  forLookups_foundRule rest pre mid post hdata hlabel hline

/-- Witness for C8 (amended): the text of the specification's example,
`...found <b> 7 </b>... <b>software in Acme</b> posted a short while...`, and
an HTML text with tags around the fragments and a `</b> posted` on a later
line. -/
theorem foundRule_on_fragments_witness :
    foundText = "..." ++ dataFragment ++ "... " ++ labelFragment ++ "..." ∧
    (∀ rest, forLookups (goLib rest)
        ("..." ++ dataFragment ++ "... " ++ labelFragment ++ "...") [foundRule] ⟨[], []⟩ =
      .next ⟨[{ Data := "7", Label := "Acme", LookupUsed := none }], []⟩) ∧
    (∀ rest, forLookups (goLib rest)
        ("<p>We've " ++ dataFragment ++ " jobs:</p><p>" ++ labelFragment ++
          " ago</p>\n<p><b>more</b> posted</p>") [foundRule] ⟨[], []⟩ =
      .next ⟨[{ Data := "7", Label := "Acme", LookupUsed := none }], []⟩) :=
  ⟨by decide,
   fun rest => foundRule_on_fragments rest "..." "... " "..."
     (by decide) (by decide) (by decide),
   fun rest => foundRule_on_fragments rest "<p>We've " " jobs:</p><p>"
     " ago</p>\n<p><b>more</b> posted</p>" (by decide) (by decide) (by decide)⟩

/-- C10 (fails on the code): for a message whose HTML body matches the rule of
`main`, the one result is `Wellington: 12` and its `LookupUsed` is nil; more
generally every result of every run has a nil `LookupUsed`. -/
theorem lookupUsed_is_never_set :
    (∀ rest, main (goLib rest) [htmlMessage "m1" wellingtonBody] =
      .next ⟨[{ Data := "12", Label := "Wellington", LookupUsed := none }],
             [.emailsContent, .result "Wellington" "12"]⟩) ∧
    ∀ (ε : Type) (lib : Lib ε) (set : LookupSet) (allContent : List Message),
      (mainFrom lib set allContent).state.lookupResults.map LookupResult.LookupUsed =
        List.replicate (mainFrom lib set allContent).state.lookupResults.length none := by
  constructor
  · intro rest
    have hdec := decode_htmlMessage rest "m1" wellingtonBody _ decode_wellingtonBody
    have hstep := (contentStep_of_decode_ok (goLib rest) allLookups ⟨[], [.emailsContent]⟩ _ _
      hdec).trans (forLookups_wellington rest)
    have hall := (forContents_cons_next (goLib rest) allLookups _ _ _ [] hstep).trans
      (forContents_nil (goLib rest) allLookups _)
    exact mainFrom_of_next (goLib rest) allLookups _ _ hall
  · intro ε lib set allContent
    rw [List.eq_replicate_iff]
    refine ⟨by simp, ?_⟩
    intro b hb
    obtain ⟨r, hr, rfl⟩ := List.mem_map.1 hb
    exact mainFrom_lookupUsed lib set allContent r hr

end Jobseeker
